import Mathlib

/-!
# Verification of the ilamb3 alignment-and-integration core

This file gives a shallow embedding, over exact rational arithmetic, of the
parts of the `ilamb3` package (`dataset.py`, `regions.py`, `compare.py`,
`analysis/relationship.py`) that the specification's claims are about, and
settles each claim against it.

Conventions of the embedding:
* numpy/xarray float arrays become `List ℚ` (or `List (List (Option ℚ))` for
  gridded data, where `none` stands for NaN / missing);
* Python exceptions become `Except` values;
* the composite map `x ↦ sin(x · π/180)` applied to latitudes in degrees is
  abstracted as a function parameter `sind : ℚ → ℚ` (theorems assume only the
  monotonicity it enjoys on `[-90, 90]`), and the scalar `π/180` that scales
  longitudes is the parameter `rad : ℚ`;
* floating-point tolerance claims are read over exact arithmetic.
-/

set_option autoImplicit false

namespace Ilamb

/-! ## List helpers (numpy-style reductions used throughout the source) -/

/-- Binary minimum written with an explicit comparison so that concrete
instances reduce inside the kernel. -/
def qmin (a b : ℚ) : ℚ := if a ≤ b then a else b

/-- Binary maximum written with an explicit comparison so that concrete
instances reduce inside the kernel. -/
def qmax (a b : ℚ) : ℚ := if a ≤ b then b else a

theorem qmin_eq_min (a b : ℚ) : qmin a b = min a b := by
  simp [qmin, min_def]

theorem qmax_eq_max (a b : ℚ) : qmax a b = max a b := by
  simp [qmax, max_def]

/-- Minimum of a list, as `var.min()` on a non-empty array (0 on empty input,
which the source never produces). -/
def listMin : List ℚ → ℚ
  | [] => 0
  | x :: xs => xs.foldl qmin x

/-- Maximum of a list, as `var.max()`. -/
def listMax : List ℚ → ℚ
  | [] => 0
  | x :: xs => xs.foldl qmax x

/-- Sum of a list of rationals. -/
def listSum (l : List ℚ) : ℚ := l.foldr (· + ·) 0

/-- `l[i]` with numpy semantics replaced by a total default access. -/
def getQ (l : List ℚ) (i : ℕ) : ℚ := l.getD i 0

/-! ## AxisResolver: `dataset.get_dim_name` -/

/-- The canonical axes handled by `get_dim_name`. -/
inductive Dim where
  | time
  | lat
  | lon
  | depth
deriving DecidableEq, Repr

/-- The fixed alias table `dim_names` of `get_dim_name`. -/
def dim_names : Dim → List String
  | .time => ["time"]
  | .lat => ["lat", "latitude", "Latitude", "y"]
  | .lon => ["lon", "longitude", "Longitude", "x"]
  | .depth => ["depth"]

/-- Printed axis label used in the error message. -/
def dimLabel : Dim → String
  | .time => "time"
  | .lat => "lat"
  | .lon => "lon"
  | .depth => "depth"

/-- The single error message built at the one `raise KeyError` site of
`get_dim_name`: it is worded "dimension not found" both when zero aliases and
when more than one alias match. -/
def dim_msg (d : Dim) (dims : List String) : String :=
  dimLabel d ++ " dimension not found: " ++ String.intercalate "," dims
    ++ "] not in [" ++ String.intercalate "," (dim_names d) ++ "]"

/-- `dataset.get_dim_name`: intersect the dataset's dim names with the alias
table; exactly one match is required, otherwise the `KeyError` above is
raised. -/
def get_dim_name (dims : List String) (d : Dim) : Except String String :=
  match dims.filter (fun s => (dim_names d).contains s) with
  | [m] => Except.ok m
  | _ => Except.error (dim_msg d dims)

/-- Number of alias matches for an axis among a dataset's dims. -/
def dimMatchCount (dims : List String) (d : Dim) : ℕ :=
  (dims.filter (fun s => (dim_names d).contains s)).length

/-! ## RelationshipEngine: `Relationship.compute_limits` -/

/-- The data of a `Relationship` needed by `compute_limits`: the dependent and
independent values (already restricted to finite, non-null cells). -/
structure RelData where
  dep : List ℚ
  ind : List ℚ
deriving DecidableEq, Repr

/-- `_singlelimit(var, limit)` from `Relationship.compute_limits`:
`[min, max]` expanded outward by `1e-8` of the range, then elementwise
min/max-merged with `limit` when one is supplied. -/
def single_limit (var : List ℚ) (limit : Option (ℚ × ℚ)) : ℚ × ℚ :=
  let lo := listMin var
  let hi := listMax var
  let delta := (hi - lo) / 100000000
  let lim : ℚ × ℚ := (lo - delta, hi + delta)
  match limit with
  | none => lim
  | some l => (qmin l.1 lim.1, qmax l.2 lim.2)

/-- The limits state written by `compute_limits`: the dep/ind limits stored on
`self`, and those stored on `rel` when one was passed. -/
structure LimitsState where
  selfDep : ℚ × ℚ
  selfInd : ℚ × ℚ
  relLimits : Option ((ℚ × ℚ) × (ℚ × ℚ))
deriving DecidableEq, Repr

/-- `Relationship.compute_limits(rel)`: computes `self`'s expanded limits, and
when `rel` is given re-runs `_singlelimit` on `self.dep` / `self.ind` (note:
not on `rel`'s data) merged with those limits, then stores the result on both
objects. -/
def compute_limits (self : RelData) (rel : Option RelData) : LimitsState :=
  let dep_lim := single_limit self.dep none
  let ind_lim := single_limit self.ind none
  match rel with
  | none => ⟨dep_lim, ind_lim, none⟩
  | some _ =>
    let dep_lim := single_limit self.dep (some dep_lim)
    let ind_lim := single_limit self.ind (some ind_lim)
    ⟨dep_lim, ind_lim, some (dep_lim, ind_lim)⟩

/-- Modelled from the spec: the union of the two relationships' individual
expanded limits (elementwise min of the expanded minima, max of the expanded
maxima), which is what `compute_limits(other)` is documented to store. -/
def spec_union_limits (a b : List ℚ) : ℚ × ℚ :=
  let la := single_limit a none
  let lb := single_limit b none
  (qmin la.1 lb.1, qmax la.2 lb.2)

/-! ## GridAligner: `compare.is_spatially_aligned` and
`compare.nest_spatial_grids`

A dataset is embedded as its latitude and longitude coordinate arrays plus a
lat-major 2-D data grid in which `none` stands for NaN. -/

/-- A gridded dataset: lat/lon coordinates plus one lat-major variable. -/
structure GridDS where
  lat : List ℚ
  lon : List ℚ
  data : List (List (Option ℚ))
deriving DecidableEq, Repr

/-- The elementwise test of `np.allclose(a, b)` with its default tolerances
`rtol = 1e-5`, `atol = 1e-8`: `|x - y| <= atol + rtol * |y|`.  Note the
second argument alone enters the relative term. -/
def closeTo (x y : ℚ) : Bool := |x - y| ≤ 1/100000000 + |y| / 100000

/-- `np.allclose` over two equally sized 1-D arrays. -/
def np_allclose (a b : List ℚ) : Bool :=
  (a.zip b).all fun p => closeTo p.1 p.2

/-- `compare.is_spatially_aligned`: sizes of lat and lon must match and the
coordinate values must be `np.allclose`. -/
def is_spatially_aligned (a b : GridDS) : Bool :=
  if a.lat.length ≠ b.lat.length then false
  else if a.lon.length ≠ b.lon.length then false
  else if ¬ np_allclose a.lat b.lat then false
  else if ¬ np_allclose a.lon b.lon then false
  else true

/-- Cell boundary edges synthesized from centroids: midpoints of consecutive
coordinates, with the first and last edge extrapolated outward by half the
adjacent spacing.  This is the `delx`/`dely` vstack construction of
`compute_cell_measures` and the estimate produced by `cf.add_bounds` in
`_return_breaks`; arrays of fewer than two points (on which the numpy code
raises) yield `[]`. -/
def synthEdges (x : List ℚ) : List ℚ :=
  if x.length < 2 then []
  else
    (List.range (x.length + 1)).map fun k =>
      if k = 0 then getQ x 0 - (getQ x 1 - getQ x 0) / 2
      else if k = x.length then
        getQ x (x.length - 1) + (getQ x (x.length - 1) - getQ x (x.length - 2)) / 2
      else (getQ x (k - 1) + getQ x k) / 2

/-- Midpoints of consecutive entries (the centroids of an edge list). -/
def midpoints (e : List ℚ) : List ℚ :=
  (List.range (e.length - 1)).map fun k => (getQ e k + getQ e (k + 1)) / 2

/-- Insert into a sorted duplicate-free list, keeping it sorted and
duplicate-free. -/
def insertSorted (x : ℚ) : List ℚ → List ℚ
  | [] => [x]
  | y :: ys =>
    if x < y then x :: y :: ys
    else if x = y then y :: ys
    else y :: insertSorted x ys

/-- `np.union1d` of flattened break arrays: the sorted union with duplicates
discarded. -/
def sortedDedup (l : List ℚ) : List ℚ := l.foldr insertSorted []

/-- The minimum of the distances from `c` to the entries of `xs`. -/
def minAbsDist (xs : List ℚ) (c : ℚ) : ℚ := listMin (xs.map fun x => |x - c|)

/-- Index of the nearest entry of `xs` to `c` (first one at minimal
distance), as used by `interp(..., method="nearest")`. -/
def nearestIdx (xs : List ℚ) (c : ℚ) : ℕ :=
  xs.findIdx fun x => |x - c| = minAbsDist xs c

/-- Nearest-neighbour resampling of a dataset onto new coordinates;
out-of-range lookups produce `none` (NaN fill). -/
def interpNearest (f : GridDS) (nlat nlon : List ℚ) : GridDS :=
  ⟨nlat, nlon,
    nlat.map fun la =>
      nlon.map fun lo =>
        (f.data.get? (nearestIdx f.lat la)).bind
          (fun row => (row.get? (nearestIdx f.lon lo)).bind id)⟩

/-- `_return_breaks` in the (modelled) case where the coordinate has no
explicit bounds variable, so `cf.add_bounds` estimates them from centroid
midpoints. -/
def returnBreaks (coords : List ℚ) : List ℚ := synthEdges coords

/-- `compare.nest_spatial_grids` on two datasets: per axis, the sorted union
of both datasets' boundary edges, new coordinates at the midpoints of
consecutive union edges, and both inputs resampled by nearest neighbour. -/
def nest_spatial_grids (a b : GridDS) : GridDS × GridDS :=
  let latU := sortedDedup (returnBreaks a.lat ++ returnBreaks b.lat)
  let lonU := sortedDedup (returnBreaks a.lon ++ returnBreaks b.lon)
  let nlat := midpoints latU
  let nlon := midpoints lonU
  (interpNearest a nlat nlon, interpNearest b nlat nlon)

/-! ## MeasureComputer: `compute_time_measures` and `compute_cell_measures`

Time coordinates are nanosecond counts (as in `datetime64[ns]` arrays);
latitudes and longitudes are degrees.  The composite map
`x ↦ sin(x * π/180)` applied to latitude edge values is abstracted as the
parameter `sind`, and the factor `π/180` multiplying longitudes as `rad`;
theorems assume of them only positivity/monotonicity, which the real values
enjoy on the physical latitude range `[-90, 90]`. -/

/-- The two failure modes of `compute_time_measures`: the explicit
`ValueError` ("Cannot estimate time measures from single value without
bounds") and the `IndexError` that `delt[0]` raises on an empty diff
array. -/
inductive MeasureError where
  | valueError
  | indexError
deriving DecidableEq, Repr

/-- `* 1e-9 / 3600 / 24`: nanoseconds to days. -/
def nsToDays (x : ℚ) : ℚ := x / 86400000000000

/-- `_measure1d` in `compute_time_measures`: forward-difference the
coordinates, replicate the first and last gap, and average adjacent gaps;
raises `ValueError` on exactly one point and `IndexError` (from `delt[0]`)
on zero points. -/
def measure1d (time : List ℚ) : Except MeasureError (List ℚ) :=
  if time.length = 1 then Except.error MeasureError.valueError
  else
    let delt := (List.range (time.length - 1)).map
      (fun i : ℕ => nsToDays (getQ time (i + 1) - getQ time i))
    if delt.length = 0 then Except.error MeasureError.indexError
    else
      let padded := getQ delt 0 :: delt ++ [getQ delt (delt.length - 1)]
      Except.ok ((List.range time.length).map
        (fun i : ℕ => (getQ padded i + getQ padded (i + 1)) / 2))

/-- `compute_time_measures`: widths from the bounds array when one is in the
dataset (`upper - lower` per step, in days), else synthesized via
`_measure1d`. -/
def compute_time_measures (time : List ℚ) (bounds : Option (List (ℚ × ℚ))) :
    Except MeasureError (List ℚ) :=
  match bounds with
  | none => measure1d time
  | some b => Except.ok (b.map fun p => nsToDays (p.2 - p.1))

/-- `earth_radius = 6.371e6` metres. -/
def earth_radius : ℚ := 6371000

/-- `compute_cell_measures` when explicit lat/lon bound arrays are in the
dataset: `dely = R * (sind lat_hi - sind lat_lo)`,
`delx = R * rad * (lon_hi - lon_lo)`, measure = `dely * delx` (this branch
takes no absolute values). -/
def cell_measures_bounds (sind : ℚ → ℚ) (rad : ℚ)
    (latb lonb : List (ℚ × ℚ)) : List (List ℚ) :=
  latb.map fun lb =>
    lonb.map fun pb =>
      (earth_radius * (sind lb.2 - sind lb.1))
        * (earth_radius * (rad * (pb.2 - pb.1)))

/-- Latitude strip widths of the centroid branch of `compute_cell_measures`:
edges synthesized from centroid midpoints, then `|R * diff(sind edges)|`. -/
def cell_widths_lat (sind : ℚ → ℚ) (lat : List ℚ) : List ℚ :=
  (List.range lat.length).map fun i : ℕ =>
    |earth_radius * (sind (getQ (synthEdges lat) (i + 1)) - sind (getQ (synthEdges lat) i))|

/-- Longitude cell widths of the centroid branch:
`|R * rad * diff(edges)|`. -/
def cell_widths_lon (rad : ℚ) (lon : List ℚ) : List ℚ :=
  (List.range lon.length).map fun j : ℕ =>
    |earth_radius * (rad * (getQ (synthEdges lon) (j + 1) - getQ (synthEdges lon) j))|

/-- `compute_cell_measures` in the centroid branch: outer product of the
latitude and longitude widths. -/
def cell_measures_centroids (sind : ℚ → ℚ) (rad : ℚ) (lat lon : List ℚ) :
    List (List ℚ) :=
  (cell_widths_lat sind lat).map fun dy =>
    (cell_widths_lon rad lon).map fun dx => dy * dx

/-! ## RegionRegistry (`regions.py`) and `dataset.integrate_space` -/

/-- A lat/lon box region (`rtype = 0` in `Regions._regions`).  Raster regions
(`rtype = 1`) come only from `add_netcdf`, which is never invoked by the
default seeding, so the default registry holds boxes exclusively. -/
structure BoxRegion where
  latlo : ℚ
  lathi : ℚ
  lonlo : ℚ
  lonhi : ℚ
deriving DecidableEq, Repr

/-- The default registry seeded at import of `regions.py`: "global" and
"globe" boxes plus the 14 GFED macro-regions. -/
def defaultRegions : List (String × BoxRegion) :=
  [("global", ⟨-89.999, 89.999, -179.999, 179.999⟩),
   ("globe", ⟨-89.999, 89.999, -179.999, 179.999⟩),
   ("bona", ⟨49.75, 79.75, -170.25, -60.25⟩),
   ("tena", ⟨30.25, 49.75, -125.25, -66.25⟩),
   ("ceam", ⟨9.75, 30.25, -115.25, -80.25⟩),
   ("nhsa", ⟨0.25, 12.75, -80.25, -50.25⟩),
   ("shsa", ⟨-59.75, 0.25, -80.25, -33.25⟩),
   ("euro", ⟨35.25, 70.25, -10.25, 30.25⟩),
   ("mide", ⟨20.25, 40.25, -10.25, 60.25⟩),
   ("nhaf", ⟨0.25, 20.25, -20.25, 45.25⟩),
   ("shaf", ⟨-34.75, 0.25, 10.25, 45.25⟩),
   ("boas", ⟨54.75, 70.25, 30.25, 179.75⟩),
   ("ceas", ⟨30.25, 54.75, 30.25, 142.58⟩),
   ("seas", ⟨5.25, 30.25, 65.25, 120.25⟩),
   ("eqas", ⟨-10.25, 10.25, 99.75, 150.25⟩),
   ("aust", ⟨-41.25, -10.50, 112.00, 154.00⟩)]

/-- `Regions._regions[label]`: `none` models the `KeyError` raised on an
unknown label. -/
def lookupRegion (label : String) : Option BoxRegion :=
  (defaultRegions.find? fun p => p.1 == label).map (·.2)

/-- The boolean condition of `get_mask` for a box region:
`(lat >= rlat[0]) * (lat <= rlat[1]) * (lon >= rlon[0]) * (lon <= rlon[1])`;
`xr.where(cond, False, True)` then marks the cell excluded iff this is
false. -/
def insideBox (r : BoxRegion) (la lo : ℚ) : Bool :=
  (r.latlo ≤ la) && (la ≤ r.lathi) && (r.lonlo ≤ lo) && (lo ≤ r.lonhi)

/-- Total access to a cell of a data grid (`none` outside). -/
def getO (data : List (List (Option ℚ))) (i j : ℕ) : Option ℚ :=
  (data.getD i []).getD j none

/-- `xr.where(mask, nan, var)` for a box-region mask: values outside the box
become NaN, the shape is unchanged. -/
def regionMaskedData (r : BoxRegion) (var : GridDS) : List (List (Option ℚ)) :=
  (List.range var.lat.length).map fun i : ℕ =>
    (List.range var.lon.length).map fun j : ℕ =>
      if insideBox r (getQ var.lat i) (getQ var.lon j) then getO var.data i j
      else none

/-- `Regions.restrict_variable(label, var)`: look the label up in the
registry (unknown label → `KeyError(label)`), build the mask and replace
excluded cells by NaN.  (The latitude/longitude axis names are resolved by
alias lookup, modelled as already successful for a field that has both
axes.) -/
def restrict_variable (label : String) (var : GridDS) : Except String GridDS :=
  match lookupRegion label with
  | none => Except.error label
  | some r => Except.ok ⟨var.lat, var.lon, regionMaskedData r var⟩

/-- Modelled from the spec: `Regions.restrict_to_region`, the method
`dataset.integrate_space` (and `relationship_analysis.__call__`) invokes, is
missing from this snapshot's `regions.py` (which defines only
`restrict_variable`); per the spec it masks the field to NaN outside the
named region via the registry, i.e. exactly `restrict_variable`. -/
def restrict_to_region (label : String) (var : GridDS) : Except String GridDS :=
  restrict_variable label var

/-- `var.weighted(msr).sum(dim=space)` with xarray semantics: NaN data
contributes zero to the weighted sum. -/
def weightedSum (data : List (List (Option ℚ))) (msr : List (List ℚ)) : ℚ :=
  listSum ((List.range data.length).map fun i : ℕ =>
    listSum ((List.range (data.getD i []).length).map fun j : ℕ =>
      match getO data i j with
      | some v => v * getQ (msr.getD i []) j
      | none => 0))

/-- The denominator of `var.weighted(msr).mean(dim=space)`: xarray masks the
weights wherever the data is NaN. -/
def sumOfWeights (data : List (List (Option ℚ))) (msr : List (List ℚ)) : ℚ :=
  listSum ((List.range data.length).map fun i : ℕ =>
    listSum ((List.range (data.getD i []).length).map fun j : ℕ =>
      match getO data i j with
      | some _ => getQ (msr.getD i []) j
      | none => 0))

/-- `dataset.integrate_space`: optionally restrict to a region (via the
registry), compute the cell measures of the (restricted) dataset from its
centroids, then produce the weighted sum, or the weighted mean when `mean`
is set. -/
def integrate_space (sind : ℚ → ℚ) (rad : ℚ) (var : GridDS)
    (region : Option String) (mean : Bool) : Except String ℚ :=
  let restricted : Except String GridDS :=
    match region with
    | none => Except.ok var
    | some label => restrict_to_region label var
  match restricted with
  | Except.error e => Except.error e
  | Except.ok v =>
    let msr := cell_measures_centroids sind rad v.lat v.lon
    if mean then Except.ok (weightedSum v.data msr / sumOfWeights v.data msr)
    else Except.ok (weightedSum v.data msr)

/-- The reduction taken only over in-region cells (spec-side formulation for
C2): sum of `value * measure` over exactly the cells inside the box that
hold valid data. -/
def spec_region_sum (sind : ℚ → ℚ) (rad : ℚ) (r : BoxRegion) (var : GridDS) : ℚ :=
  listSum ((List.range var.lat.length).map fun i : ℕ =>
    listSum ((List.range var.lon.length).map fun j : ℕ =>
      if insideBox r (getQ var.lat i) (getQ var.lon j) then
        match getO var.data i j with
        | some v =>
          v * getQ ((cell_measures_centroids sind rad var.lat var.lon).getD i []) j
        | none => 0
      else 0))

/-- The in-region weight total (spec-side formulation for C2). -/
def spec_region_weights (sind : ℚ → ℚ) (rad : ℚ) (r : BoxRegion) (var : GridDS) : ℚ :=
  listSum ((List.range var.lat.length).map fun i : ℕ =>
    listSum ((List.range var.lon.length).map fun j : ℕ =>
      if insideBox r (getQ var.lat i) (getQ var.lon j) then
        match getO var.data i j with
        | some _ => getQ ((cell_measures_centroids sind rad var.lat var.lon).getD i []) j
        | none => 0
      else 0))

/-! ## Coarsener: `dataset.coarsen_dataset`

`xarray.coarsen({lat: f, lon: f}, boundary="pad")` tiles the grid in `f x f`
blocks, padding incomplete boundary tiles with NaN; `.sum()` skips NaN (so
padded and invalid cells contribute nothing), the coordinate of a coarse
cell is the NaN-skipping mean of its block's coordinates, and
`.any(...)`-counting of valid cells is a block sum of indicator values.  The
embedding expresses a block through index arithmetic, with out-of-range
accesses modelling the NaN padding. -/

/-- `(lat.diff(lat_name)).mean()`. -/
def meanLatSpacing (lat : List ℚ) : ℚ :=
  let diffs := (List.range (lat.length - 1)).map fun i : ℕ =>
    getQ lat (i + 1) - getQ lat i
  listSum diffs / diffs.length

/-- `int(round(res / np.abs(lat.diff().mean())))`.  (Python's `round` ties to
even; `round` here ties up — no theorem below sits on a tie.) -/
def fine_per_coarse (res : ℚ) (lat : List ℚ) : ℕ :=
  (round (res / |meanLatSpacing lat|)).toNat

/-- Count of valid (non-NaN) fine cells contributing to coarse cell `(k,l)`:
the `nll` array of `coarsen_dataset`. -/
def countValid (data : List (List (Option ℚ))) (f k l : ℕ) : ℕ :=
  ∑ t ∈ Finset.range f, ∑ s ∈ Finset.range f,
    (match getO data (f * k + t) (f * l + s) with
     | some _ => 1
     | none => 0)

/-- Block sum of `value * fine measure` over coarse cell `(k,l)`: one entry
of `(dset * cell_measures).coarsen(...).sum()`. -/
def blockMass (data : List (List (Option ℚ))) (msr : List (List ℚ)) (f k l : ℕ) : ℚ :=
  ∑ t ∈ Finset.range f, ∑ s ∈ Finset.range f,
    (match getO data (f * k + t) (f * l + s) with
     | some v => v * getQ (msr.getD (f * k + t) []) (f * l + s)
     | none => 0)

/-- Coarse coordinate of block `k`: the mean of the block's (present)
coordinates. -/
def blockMean (xs : List ℚ) (f k : ℕ) : ℚ :=
  let pres := (Finset.range f).filter fun t => f * k + t < xs.length
  (∑ t ∈ pres, getQ xs (f * k + t)) / pres.card

/-- Number of coarse cells along an axis of `n` fine cells with block factor
`f` and `boundary="pad"`: the ceiling of `n / f`. -/
def coarseSize (f n : ℕ) : ℕ := (n + f - 1) / f

/-- `dataset.coarsen_dataset`: compute (fine) cell measures, block-sum the
mass `value * measure` and the valid-cell counts, recompute cell measures on
the coarse grid independently, divide mass by the coarse measures, and mask
(NaN) the coarse cells with zero valid contributors. -/
def coarsen_dataset (sind : ℚ → ℚ) (rad : ℚ) (res : ℚ) (ds : GridDS) : GridDS :=
  let f := fine_per_coarse res ds.lat
  let msr := cell_measures_centroids sind rad ds.lat ds.lon
  let K := coarseSize f ds.lat.length
  let L := coarseSize f ds.lon.length
  let clat := (List.range K).map fun k : ℕ => blockMean ds.lat f k
  let clon := (List.range L).map fun l : ℕ => blockMean ds.lon f l
  let cmsr := cell_measures_centroids sind rad clat clon
  ⟨clat, clon,
    (List.range K).map fun k : ℕ =>
      (List.range L).map fun l : ℕ =>
        if countValid ds.data f k l = 0 then none
        else some (blockMass ds.data msr f k l / getQ (cmsr.getD k []) l)⟩

/-! ## RelationshipEngine: `Relationship.build_response` and
`Relationship.score_response`

`ind` and `dep` stand for the compressed (valid, finite) value arrays; the
limits are `self._ind_limits`; only the non-log path is modelled, which is
the one the orchestration exercises. -/

/-- The linear bin edges `np.histogram2d` computes for an integer bin count
over an explicit range: `linspace(lo, hi, nbin + 1)`. -/
def linEdges (lo hi : ℚ) (nbin : ℕ) : List ℚ :=
  (List.range (nbin + 1)).map fun t : ℕ => lo + (t : ℚ) * ((hi - lo) / nbin)

/-- `np.digitize(x, edges)` for increasing edges: the number of edges `≤ x`. -/
def digitize (x : ℚ) (edges : List ℚ) : ℕ :=
  (edges.filter fun e2 => e2 ≤ x).length

/-- `np.digitize(ind, xedges).clip(1, xedges.size - 1) - 1`. -/
def whichBin (x : ℚ) (edges : List ℚ) (nbin : ℕ) : ℕ :=
  min (max (digitize x edges) 1) nbin - 1

/-- `dep[which_bin == i]`. -/
def binValues (ind dep : List ℚ) (edges : List ℚ) (nbin i : ℕ) : List ℚ :=
  ((ind.zip dep).filter fun p => whichBin p.1 edges nbin == i).map (·.2)

/-- One entry of the `_response_mean` data array: the mean of the bin's
dependent values, or the explicitly assigned `0` for an empty bin. -/
def binMeanData (ind dep : List ℚ) (edges : List ℚ) (nbin i : ℕ) : ℚ :=
  let vals := binValues ind dep edges nbin i
  if vals.length = 0 then 0 else listSum vals / (vals.length : ℚ)

/-- The underlying data array of the masked `_response_mean` produced by
`build_response` (non-log path). -/
def response_mean_data (ind dep : List ℚ) (lim : ℚ × ℚ) (nbin : ℕ) : List ℚ :=
  (List.range nbin).map fun i : ℕ =>
    binMeanData ind dep (linEdges lim.1 lim.2 nbin) nbin i

/-- The mask of `_response_mean`: a bin is masked out when its population
fraction `cnt[i] / cnt.sum()` is below `eps`. -/
def response_mask (ind dep : List ℚ) (lim : ℚ × ℚ) (nbin : ℕ) (eps : ℚ) :
    List Bool :=
  let edges := linEdges lim.1 lim.2 nbin
  let total : ℕ :=
    ((List.range nbin).map fun i : ℕ => (binValues ind dep edges nbin i).length).sum
  (List.range nbin).map fun i : ℕ =>
    ((binValues ind dep edges nbin i).length : ℚ) / (total : ℚ) < eps

/-- Sum of squares (the square of the Euclidean norm). -/
def normSq (l : List ℚ) : ℚ := listSum (l.map fun x => x * x)

/-- Elementwise difference of two aligned arrays. -/
def zipSub (a b : List ℚ) : List ℚ := (a.zip b).map fun p => p.1 - p.2

/-- `np.linalg.norm` of a (masked) 1-D array: `asarray` drops the mask, so
the norm runs over the full underlying data. -/
noncomputable def np_norm (l : List ℚ) : ℝ := Real.sqrt (normSq l)

/-- `Relationship.score_response`: `exp(-(norm(mean_self - mean_other) /
norm(mean_self)))` over the response-mean *data* arrays (the masks are
dropped by `np.linalg.norm`'s `asarray`). -/
noncomputable def score_response (m1 m2 : List ℚ) : ℝ :=
  Real.exp (-(np_norm (zipSub m1 m2) / np_norm m1))

/-- The unmasked aligned per-bin mean pairs of two responses. -/
def maskedPairs (m1 : List ℚ) (k1 : List Bool) (m2 : List ℚ) (k2 : List Bool) :
    List (ℚ × ℚ) :=
  (((m1.zip k1).zip (m2.zip k2)).filter fun p => !p.1.2 && !p.2.2).map
    fun p => (p.1.1, p.2.1)

/-- Modelled from the spec: the claimed score,
`exp(-‖mean_self - mean_other‖₂ / ‖mean_self‖₂)` taken over only the
unmasked aligned per-bin means. -/
noncomputable def spec_score (m1 : List ℚ) (k1 : List Bool) (m2 : List ℚ)
    (k2 : List Bool) : ℝ :=
  let pairs := maskedPairs m1 k1 m2 k2
  Real.exp (-(Real.sqrt (normSq (pairs.map fun p => p.1 - p.2))
    / Real.sqrt (normSq (pairs.map (·.1)))))

/-- A uniformly spaced coordinate array `a, a+d, ..., a+(n-1)d`. -/
def uniGrid (a d : ℚ) (n : ℕ) : List ℚ :=
  (List.range n).map fun i : ℕ => a + (i : ℚ) * d

/-- The data grid is consistent with the coordinate arrays. -/
def wellFormed (f : GridDS) : Prop :=
  f.data.length = f.lat.length ∧ ∀ row ∈ f.data, row.length = f.lon.length

end Ilamb

/-! ## Theorems -/

namespace Ilamb

/-- C7 (counterexample): on a dataset whose dims are `["lat", "latitude"]` the
lat-axis resolution is ambiguous (two alias matches), yet `get_dim_name`
raises the very same "dimension not found" `KeyError` used for zero matches —
there is no distinct "axis ambiguous" error anywhere in the code. -/
theorem get_dim_name_ambiguous_not_distinct :
    get_dim_name ["lat", "latitude"] Dim.lat
      = Except.error (dim_msg Dim.lat ["lat", "latitude"])
    ∧ dimMatchCount ["lat", "latitude"] Dim.lat = 2
    ∧ get_dim_name ["time"] Dim.lat = Except.error (dim_msg Dim.lat ["time"])
    ∧ dimMatchCount ["time"] Dim.lat = 0 := by
  refine ⟨rfl, rfl, rfl, rfl⟩

/-- C7 (amended): axis resolution succeeds exactly when the intersection of
the dataset's dims with the alias table has exactly one element; both zero
matches and more than one match raise the same "dimension not found"
`KeyError`, propagated unmodified. -/
theorem get_dim_name_resolution (dims : List String) (d : Dim) :
    ((get_dim_name dims d).isOk = true ↔ dimMatchCount dims d = 1)
    ∧ (dimMatchCount dims d ≠ 1
        → get_dim_name dims d = Except.error (dim_msg d dims)) := by
  unfold get_dim_name dimMatchCount
  cases h : dims.filter (fun s => (dim_names d).contains s) with
  | nil => simp [Except.isOk, Except.toBool]
  | cons x xs =>
    cases xs with
    | nil => simp [Except.isOk, Except.toBool]
    | cons y ys => simp [Except.isOk, Except.toBool]

/-- C7 witness: concrete application of `get_dim_name_resolution`. -/
theorem get_dim_name_resolution_witness :
    get_dim_name ["lat", "latitude"] Dim.lat
      = Except.error (dim_msg Dim.lat ["lat", "latitude"]) :=
  (get_dim_name_resolution ["lat", "latitude"] Dim.lat).2 (by decide)

/-- C1 (code bug, evaluated at the failing input): with `r.dep = [0,1]` and
`s.dep = [0,2]`, `r.compute_limits(s)` stores `r`'s own expanded limits
`[-1e-8, 1 + 1e-8]` on both objects — not the union with `s`'s limits, whose
upper end would be `2 + 2e-8` — because the second `_singlelimit` call is fed
`self.dep` again instead of `rel.dep`. -/
theorem compute_limits_ignores_other :
    compute_limits ⟨[0, 1], [0, 1]⟩ (some ⟨[0, 2], [0, 2]⟩)
      = ⟨(-1/100000000, 1 + 1/100000000),
         (-1/100000000, 1 + 1/100000000),
         some ((-1/100000000, 1 + 1/100000000),
               (-1/100000000, 1 + 1/100000000))⟩
    ∧ spec_union_limits [0, 1] [0, 2] = (-2/100000000, 2 + 2/100000000)
    ∧ (compute_limits ⟨[0, 1], [0, 1]⟩ (some ⟨[0, 2], [0, 2]⟩)).selfDep
        ≠ spec_union_limits [0, 1] [0, 2] := by
  refine ⟨?_, ?_, ?_⟩ <;>
    norm_num [compute_limits, single_limit, spec_union_limits, listMin,
      listMax, qmin, qmax, LimitsState.mk.injEq, Prod.ext_iff]

/-- `np_allclose` is symmetric as soon as no coordinate pair falls in the
marginal band where the `atol + rtol * |second argument|` threshold depends
on the argument order. -/
theorem np_allclose_symm_of (a b : List ℚ)
    (h : ∀ p ∈ a.zip b, closeTo p.1 p.2 = closeTo p.2 p.1) :
    np_allclose a b = np_allclose b a := by
  induction a generalizing b with
  | nil => cases b <;> simp [np_allclose]
  | cons x xs ih =>
    cases b with
    | nil => simp [np_allclose]
    | cons y ys =>
      have h0 := h (x, y) (by simp)
      have h' : ∀ p ∈ xs.zip ys, closeTo p.1 p.2 = closeTo p.2 p.1 :=
        fun p hp => h p (by simp [hp])
      simp only [np_allclose, List.zip_cons_cons, List.all_cons] at *
      rw [h0, ih ys h']

/-- C10 (counterexample): `is_spatially_aligned` is not symmetric, because
`np.allclose` scales its relative tolerance by the second argument only.
With latitudes `[199998]` and `[200000]` the distance `2` is below
`1e-8 + 1e-5 * 200000` but above `1e-8 + 1e-5 * 199998`. -/
theorem is_spatially_aligned_asymmetric :
    is_spatially_aligned ⟨[199998], [0], [[some 1]]⟩ ⟨[200000], [0], [[some 1]]⟩ = true
    ∧ is_spatially_aligned ⟨[200000], [0], [[some 1]]⟩ ⟨[199998], [0], [[some 1]]⟩
        = false := by
  constructor <;> norm_num [is_spatially_aligned, np_allclose, closeTo]

/-- C10 (amended): the alignment check is symmetric whenever, per axis, every
paired coordinate satisfies the closeness test symmetrically — i.e. outside
the marginal band where the order-dependent `rtol * |y|` term decides; the
size checks are symmetric unconditionally. -/
theorem is_spatially_aligned_symmetric (a b : GridDS)
    (hlat : ∀ p ∈ a.lat.zip b.lat, closeTo p.1 p.2 = closeTo p.2 p.1)
    (hlon : ∀ p ∈ a.lon.zip b.lon, closeTo p.1 p.2 = closeTo p.2 p.1) :
    is_spatially_aligned a b = is_spatially_aligned b a := by
  by_cases h1 : a.lat.length = b.lat.length
  · by_cases h2 : a.lon.length = b.lon.length
    · simp only [is_spatially_aligned, h1, h2,
        np_allclose_symm_of a.lat b.lat hlat, np_allclose_symm_of a.lon b.lon hlon]
    · have h2' : b.lon.length ≠ a.lon.length := fun h => h2 h.symm
      simp [is_spatially_aligned, h1, h2, h2']
  · have h1' : b.lat.length ≠ a.lat.length := fun h => h1 h.symm
    simp [is_spatially_aligned, h1, h1']

/-- C10 witness: a concrete application of `is_spatially_aligned_symmetric`
to two distinct one-point grids. -/
theorem is_spatially_aligned_symmetric_witness :
    is_spatially_aligned ⟨[0], [0], [[some 1]]⟩ ⟨[1], [0], [[some 1]]⟩
      = is_spatially_aligned ⟨[1], [0], [[some 1]]⟩ ⟨[0], [0], [[some 1]]⟩ :=
  is_spatially_aligned_symmetric _ _
    (fun p hp => by
      have hp' : p = ((0 : ℚ), (1 : ℚ)) := by simpa using hp
      subst hp'
      norm_num [closeTo])
    (fun p hp => by
      have hp' : p = ((0 : ℚ), (0 : ℚ)) := by simpa using hp
      subst hp'
      rfl)

/-! ### Nesting identical uniform grids (towards C6) -/

theorem getQ_range_map (f : ℕ → ℚ) {n i : ℕ} (h : i < n) :
    getQ ((List.range n).map f) i = f i := by
  simp [getQ, List.getD_eq_getElem?_getD, List.getElem?_range h]

theorem uniGrid_length (a d : ℚ) (n : ℕ) : (uniGrid a d n).length = n := by
  simp [uniGrid]

theorem getQ_uniGrid (a d : ℚ) {n i : ℕ} (h : i < n) :
    getQ (uniGrid a d n) i = a + (i : ℚ) * d :=
  getQ_range_map _ h

theorem getElem_uniGrid (a d : ℚ) {n i : ℕ} (h : i < (uniGrid a d n).length) :
    (uniGrid a d n)[i] = a + (i : ℚ) * d := by
  simp [uniGrid]

/-- On a uniform grid, midpoint edge synthesis produces the uniform edge
array shifted down by half a spacing. -/
theorem synthEdges_uniGrid (a d : ℚ) {n : ℕ} (hn : 2 ≤ n) :
    synthEdges (uniGrid a d n) = uniGrid (a - d/2) d (n+1) := by
  unfold synthEdges
  simp only [uniGrid_length]
  rw [if_neg (by omega)]
  conv_rhs => rw [uniGrid]
  apply List.map_congr_left
  intro k hk
  simp only [List.mem_range] at hk
  by_cases h0 : k = 0
  · subst h0
    rw [if_pos rfl, getQ_uniGrid a d (by omega), getQ_uniGrid a d (by omega)]
    push_cast
    ring
  · rw [if_neg h0]
    by_cases hN : k = n
    · subst hN
      rw [if_pos rfl, getQ_uniGrid a d (by omega), getQ_uniGrid a d (by omega)]
      rw [Nat.cast_sub (by omega), Nat.cast_sub (by omega)]
      push_cast
      ring
    · rw [if_neg hN, getQ_uniGrid a d (by omega), getQ_uniGrid a d (by omega)]
      rw [Nat.cast_sub (by omega)]
      push_cast
      ring

/-- Midpoints of a uniform edge array form the uniform centroid array. -/
theorem midpoints_uniGrid (a d : ℚ) (n : ℕ) :
    midpoints (uniGrid a d (n+1)) = uniGrid (a + d/2) d n := by
  unfold midpoints
  simp only [uniGrid_length, Nat.add_sub_cancel]
  conv_rhs => rw [uniGrid]
  apply List.map_congr_left
  intro k hk
  simp only [List.mem_range] at hk
  rw [getQ_uniGrid _ _ (by omega), getQ_uniGrid _ _ (by omega)]
  push_cast
  ring

theorem uniGrid_chain (a : ℚ) {d : ℚ} (hd : 0 < d) (n : ℕ) :
    List.Chain' (· < ·) (uniGrid a d n) := by
  rw [List.chain'_iff_pairwise, uniGrid, List.pairwise_map]
  refine (List.pairwise_lt_range n).imp ?_
  intro i j hij
  have : (i : ℚ) < (j : ℚ) := by exact_mod_cast hij
  nlinarith

theorem mem_insertSorted {x y : ℚ} :
    ∀ {l : List ℚ}, y ∈ insertSorted x l ↔ y = x ∨ y ∈ l := by
  intro l
  induction l with
  | nil => simp [insertSorted]
  | cons z zs ih =>
    unfold insertSorted
    by_cases h1 : x < z
    · rw [if_pos h1]
      simp
    · rw [if_neg h1]
      by_cases h2 : x = z
      · rw [if_pos h2]
        subst h2
        simp only [List.mem_cons]
        tauto
      · rw [if_neg h2]
        simp only [List.mem_cons, ih]
        tauto

theorem chain_insertSorted {x : ℚ} :
    ∀ {l : List ℚ}, List.Chain' (· < ·) l → List.Chain' (· < ·) (insertSorted x l) := by
  intro l
  induction l with
  | nil => intro _; simp [insertSorted]
  | cons z zs ih =>
    intro h
    unfold insertSorted
    by_cases h1 : x < z
    · rw [if_pos h1]
      exact List.chain'_cons.mpr ⟨h1, h⟩
    · by_cases h2 : x = z
      · rw [if_neg h1, if_pos h2]
        exact h
      · rw [if_neg h1, if_neg h2]
        have hzx : z < x := lt_of_le_of_ne (not_lt.mp h1) (fun h => h2 h.symm)
        have htail := ih (List.Chain'.tail h)
        refine List.chain'_cons'.mpr ⟨?_, htail⟩
        intro w hw
        cases zs with
        | nil =>
          simp [insertSorted] at hw
          subst hw
          exact hzx
        | cons u us =>
          have hzu : z < u := (List.chain'_cons.mp h).1
          unfold insertSorted at hw
          by_cases h3 : x < u
          · rw [if_pos h3] at hw
            simp at hw
            subst hw
            exact hzx
          · by_cases h4 : x = u
            · rw [if_neg h3, if_pos h4] at hw
              simp at hw
              subst hw
              exact hzu
            · rw [if_neg h3, if_neg h4] at hw
              simp at hw
              subst hw
              exact hzu

theorem chain_sortedDedup (l : List ℚ) : List.Chain' (· < ·) (sortedDedup l) := by
  induction l with
  | nil => simp [sortedDedup]
  | cons x xs ih => exact chain_insertSorted ih

theorem mem_sortedDedup {y : ℚ} : ∀ {l : List ℚ}, y ∈ sortedDedup l ↔ y ∈ l := by
  intro l
  induction l with
  | nil => simp [sortedDedup]
  | cons x xs ih =>
    show y ∈ insertSorted x (sortedDedup xs) ↔ _
    rw [mem_insertSorted]
    simp only [List.mem_cons, ih]

/-- Two strictly sorted lists with the same members are equal. -/
theorem chain_lt_ext :
    ∀ {l₁ l₂ : List ℚ}, List.Chain' (· < ·) l₁ → List.Chain' (· < ·) l₂ →
      (∀ x, x ∈ l₁ ↔ x ∈ l₂) → l₁ = l₂ := by
  intro l₁
  induction l₁ with
  | nil =>
    intro l₂ _ _ h
    cases l₂ with
    | nil => rfl
    | cons y ys => exact absurd ((h y).mpr (List.mem_cons_self y ys)) (by simp)
  | cons x xs ih =>
    intro l₂ h₁ h₂ h
    cases l₂ with
    | nil => exact absurd ((h x).mp (List.mem_cons_self x xs)) (by simp)
    | cons y ys =>
      have p₁ := List.chain'_iff_pairwise.mp h₁
      have p₂ := List.chain'_iff_pairwise.mp h₂
      have hxy : x = y := by
        rcases List.mem_cons.mp ((h x).mp (List.mem_cons_self x xs)) with hx | hx
        · exact hx
        · rcases List.mem_cons.mp ((h y).mpr (List.mem_cons_self y ys)) with hy | hy
          · exact hy.symm
          · have hlt1 : y < x := (List.pairwise_cons.mp p₂).1 x hx
            have hlt2 : x < y := (List.pairwise_cons.mp p₁).1 y hy
            exact absurd (hlt2.trans hlt1) (lt_irrefl x)
      subst hxy
      have htails : ∀ z, z ∈ xs ↔ z ∈ ys := by
        intro z
        constructor
        · intro hz
          have hxz : x < z := (List.pairwise_cons.mp p₁).1 z hz
          rcases List.mem_cons.mp ((h z).mp (List.mem_cons.mpr (Or.inr hz))) with h' | h'
          · exact absurd h' (by intro e; rw [e] at hxz; exact lt_irrefl x hxz)
          · exact h'
        · intro hz
          have hxz : x < z := (List.pairwise_cons.mp p₂).1 z hz
          rcases List.mem_cons.mp ((h z).mpr (List.mem_cons.mpr (Or.inr hz))) with h' | h'
          · exact absurd h' (by intro e; rw [e] at hxz; exact lt_irrefl x hxz)
          · exact h'
      exact congrArg (x :: ·) (ih (List.Chain'.tail h₁) (List.Chain'.tail h₂) htails)

theorem sortedDedup_append_self {E : List ℚ} (hE : List.Chain' (· < ·) E) :
    sortedDedup (E ++ E) = E :=
  chain_lt_ext (chain_sortedDedup _) hE
    (fun x => by simp [mem_sortedDedup])

theorem foldl_qmin_le_acc : ∀ (l : List ℚ) (acc : ℚ), l.foldl qmin acc ≤ acc := by
  intro l
  induction l with
  | nil => intro acc; simp
  | cons x xs ih =>
    intro acc
    calc (x :: xs).foldl qmin acc = xs.foldl qmin (qmin acc x) := rfl
    _ ≤ qmin acc x := ih _
    _ ≤ acc := by rw [qmin_eq_min]; exact min_le_left _ _

theorem foldl_qmin_le_mem :
    ∀ {l : List ℚ} {x : ℚ}, x ∈ l → ∀ acc : ℚ, l.foldl qmin acc ≤ x := by
  intro l
  induction l with
  | nil => intro x hx; exact absurd hx (by simp)
  | cons y ys ih =>
    intro x hx acc
    rcases List.mem_cons.mp hx with h | h
    · subst h
      calc (x :: ys).foldl qmin acc = ys.foldl qmin (qmin acc x) := rfl
      _ ≤ qmin acc x := foldl_qmin_le_acc _ _
      _ ≤ x := by rw [qmin_eq_min]; exact min_le_right _ _
    · exact ih h _

theorem le_foldl_qmin :
    ∀ {l : List ℚ} {c acc : ℚ}, (∀ x ∈ l, c ≤ x) → c ≤ acc → c ≤ l.foldl qmin acc := by
  intro l
  induction l with
  | nil => intro c acc _ h; exact h
  | cons y ys ih =>
    intro c acc h hacc
    refine ih (fun x hx => h x (List.mem_cons.mpr (Or.inr hx))) ?_
    rw [qmin_eq_min, le_min_iff]
    exact ⟨hacc, h y (List.mem_cons_self y ys)⟩

theorem listMin_le_mem {l : List ℚ} {x : ℚ} (h : x ∈ l) : listMin l ≤ x := by
  cases l with
  | nil => exact absurd h (by simp)
  | cons y ys =>
    rcases List.mem_cons.mp h with h' | h'
    · subst h'
      exact foldl_qmin_le_acc _ _
    · exact foldl_qmin_le_mem h' _

theorem le_listMin {l : List ℚ} {c : ℚ} (hne : l ≠ []) (h : ∀ x ∈ l, c ≤ x) :
    c ≤ listMin l := by
  cases l with
  | nil => exact absurd rfl hne
  | cons y ys =>
    exact le_foldl_qmin (fun x hx => h x (List.mem_cons.mpr (Or.inr hx)))
      (h y (List.mem_cons_self y ys))

/-- When `c` is one of the coordinates, the minimal distance to `c` is 0. -/
theorem minAbsDist_eq_zero {xs : List ℚ} {c : ℚ} (h : c ∈ xs) :
    minAbsDist xs c = 0 := by
  refine le_antisymm ?_ ?_
  · refine listMin_le_mem (List.mem_map.mpr ⟨c, h, ?_⟩)
    simp
  · have hxs : xs ≠ [] := List.ne_nil_of_mem h
    refine le_listMin (fun hnil => hxs (by simpa using hnil)) ?_
    intro x hx
    rcases List.mem_map.mp hx with ⟨y, _, hy⟩
    rw [← hy]
    exact abs_nonneg _

/-- `findIdx` characterisation via total indexing. -/
theorem findIdx_getQ_eq {p : ℚ → Bool} :
    ∀ {l : List ℚ} {i : ℕ}, i < l.length → p (getQ l i) = true →
      (∀ j, j < i → p (getQ l j) = false) → l.findIdx p = i := by
  intro l
  induction l with
  | nil => intro i hi; simp at hi
  | cons x xs ih =>
    intro i hi hp hprev
    cases i with
    | zero =>
      have : p x = true := by simpa [getQ] using hp
      simp [List.findIdx_cons, this]
    | succ i' =>
      have h0 : p x = false := by simpa [getQ] using hprev 0 (Nat.succ_pos i')
      simp only [List.findIdx_cons, h0, cond_false]
      have hi' : i' < xs.length := by simpa using hi
      have hp' : p (getQ xs i') = true := by simpa [getQ] using hp
      have hprev' : ∀ j, j < i' → p (getQ xs j) = false := by
        intro j hj
        simpa [getQ] using hprev (j + 1) (by omega)
      rw [ih hi' hp' hprev']

/-- On a strictly increasing uniform grid the nearest grid point to the `i`-th
coordinate is the `i`-th point itself. -/
theorem nearestIdx_uniGrid {a d : ℚ} (hd : 0 < d) {n i : ℕ} (hi : i < n) :
    nearestIdx (uniGrid a d n) (a + (i : ℚ) * d) = i := by
  have hmem : a + (i : ℚ) * d ∈ uniGrid a d n := by
    rw [uniGrid]
    exact List.mem_map.mpr ⟨i, List.mem_range.mpr hi, rfl⟩
  have hmin : minAbsDist (uniGrid a d n) (a + (i : ℚ) * d) = 0 :=
    minAbsDist_eq_zero hmem
  unfold nearestIdx
  refine findIdx_getQ_eq ?_ ?_ ?_
  · rw [uniGrid_length]; exact hi
  · rw [getQ_uniGrid _ _ hi, hmin]
    simp
  · intro j hj
    rw [getQ_uniGrid _ _ (hj.trans hi), hmin]
    simp only [decide_eq_false_iff_not, abs_eq_zero, sub_eq_zero]
    intro heq
    have hjq : (j : ℚ) < (i : ℚ) := by exact_mod_cast hj
    nlinarith

/-- Resampling a well-formed dataset onto its own (strictly sorted uniform)
grid is the identity. -/
theorem interpNearest_self {f : GridDS} {a d b e : ℚ} {n m : ℕ}
    (hd : 0 < d) (he : 0 < e)
    (hlat : f.lat = uniGrid a d n) (hlon : f.lon = uniGrid b e m)
    (hwf : wellFormed f) :
    interpNearest f f.lat f.lon = f := by
  obtain ⟨hlen, hrow⟩ := hwf
  cases f with
  | mk lat lon data =>
    simp only at hlat hlon hlen hrow
    subst hlat hlon
    simp only [interpNearest, GridDS.mk.injEq, true_and]
    refine List.ext_getElem ?_ ?_
    · simp [uniGrid, hlen]
    · intro i h1 h2
      have hi : i < n := by simpa [uniGrid] using h1
      simp only [List.getElem_map]
      rw [getElem_uniGrid]
      have hidx : nearestIdx (uniGrid a d n) (a + (i : ℚ) * d) = i :=
        nearestIdx_uniGrid hd hi
      rw [hidx]
      have hget : data.get? i = some data[i] := by
        rw [List.get?_eq_getElem?, List.getElem?_eq_getElem h2]
      rw [hget]
      simp only [Option.some_bind]
      have hrowlen : data[i].length = m := by
        have := hrow data[i] (List.getElem_mem h2)
        simpa [uniGrid] using this
      refine List.ext_getElem ?_ ?_
      · simp [uniGrid, hrowlen]
      · intro j g1 g2
        have hj : j < m := by simpa [uniGrid] using g1
        simp only [List.getElem_map]
        rw [getElem_uniGrid, nearestIdx_uniGrid he hj]
        have : data[i].get? j = some data[i][j] := by
          rw [List.get?_eq_getElem?, List.getElem?_eq_getElem g2]
        rw [this, Option.some_bind, id]

/-- C6 (counterexample): two datasets whose latitudes differ by `1e-9` are
`is_spatially_aligned` (the tolerance is `1e-8`), yet `nest_spatial_grids`
does not return them unchanged: the union of their boundary edges has six
distinct entries, so the nested grid has five latitude points instead of
two. -/
theorem nest_changes_aligned_grids :
    is_spatially_aligned ⟨[0, 1], [0, 1], [[some 1, some 2], [some 3, some 4]]⟩
        ⟨[1/1000000000, 1], [0, 1], [[some 1, some 2], [some 3, some 4]]⟩ = true
    ∧ ((nest_spatial_grids ⟨[0, 1], [0, 1], [[some 1, some 2], [some 3, some 4]]⟩
          ⟨[1/1000000000, 1], [0, 1], [[some 1, some 2], [some 3, some 4]]⟩).1).lat.length
        = 5
    ∧ ((nest_spatial_grids ⟨[0, 1], [0, 1], [[some 1, some 2], [some 3, some 4]]⟩
          ⟨[1/1000000000, 1], [0, 1], [[some 1, some 2], [some 3, some 4]]⟩).1).lat
        ≠ [0, 1] := by
  refine ⟨?_, ?_, ?_⟩
  · norm_num [is_spatially_aligned, np_allclose, closeTo, abs_of_nonneg,
      abs_of_pos]
  · norm_num [nest_spatial_grids, returnBreaks, synthEdges, midpoints,
      sortedDedup, insertSorted, interpNearest, getQ, List.range_succ]
  · norm_num [nest_spatial_grids, returnBreaks, synthEdges, midpoints,
      sortedDedup, insertSorted, interpNearest, getQ, List.range_succ]

/-- C6 (amended): when the two datasets carry *identical, uniformly spaced*
latitude and longitude coordinates (at least two points per axis, no
explicit bounds, well-formed data grids), `nest_spatial_grids` returns both
inputs unchanged: the union of edges collapses to the common edge set, the
midpoints reproduce the original coordinates, and nearest-neighbour
resampling at the original coordinates is the identity. -/
theorem nest_identical_uniform_grids (A B : GridDS) (a d b e : ℚ) (n m : ℕ)
    (hd : 0 < d) (he : 0 < e) (hn : 2 ≤ n) (hm : 2 ≤ m)
    (hAlat : A.lat = uniGrid a d n) (hAlon : A.lon = uniGrid b e m)
    (hBlat : B.lat = uniGrid a d n) (hBlon : B.lon = uniGrid b e m)
    (hA : wellFormed A) (hB : wellFormed B) :
    nest_spatial_grids A B = (A, B) := by
  simp only [nest_spatial_grids, returnBreaks]
  rw [hAlat, hAlon, hBlat, hBlon]
  rw [synthEdges_uniGrid a d hn, synthEdges_uniGrid b e hm]
  rw [sortedDedup_append_self (uniGrid_chain _ hd _),
    sortedDedup_append_self (uniGrid_chain _ he _)]
  rw [midpoints_uniGrid, midpoints_uniGrid, sub_add_cancel, sub_add_cancel]
  simp only [Prod.mk.injEq]
  constructor
  · rw [← hAlat, ← hAlon]
    exact interpNearest_self hd he hAlat hAlon hA
  · rw [← hBlat, ← hBlon]
    exact interpNearest_self hd he hBlat hBlon hB

/-- C6 witness: a concrete application of `nest_identical_uniform_grids` to
two distinct datasets on the same uniform 2x2 grid. -/
theorem nest_identical_uniform_grids_witness :
    nest_spatial_grids ⟨[0, 1], [0, 1], [[some 1, some 2], [some 3, some 4]]⟩
        ⟨[0, 1], [0, 1], [[some 5, none], [some 6, some 7]]⟩
      = (⟨[0, 1], [0, 1], [[some 1, some 2], [some 3, some 4]]⟩,
         ⟨[0, 1], [0, 1], [[some 5, none], [some 6, some 7]]⟩) :=
  nest_identical_uniform_grids _ _ 0 1 0 1 2 2 (by norm_num) (by norm_num)
    (by norm_num) (by norm_num)
    (by norm_num [uniGrid, List.range_succ])
    (by norm_num [uniGrid, List.range_succ])
    (by norm_num [uniGrid, List.range_succ])
    (by norm_num [uniGrid, List.range_succ])
    ⟨rfl, by simp⟩ ⟨rfl, by simp⟩

/-! ### Time and cell measures (C8, C5) -/

theorem getQ_nonneg {l : List ℚ} (h : ∀ x ∈ l, 0 ≤ x) (k : ℕ) : 0 ≤ getQ l k := by
  by_cases hk : k < l.length
  · rw [getQ, List.getD_eq_getElem _ _ hk]
    exact h _ (List.getElem_mem hk)
  · rw [getQ, List.getD_eq_default _ _ (le_of_not_lt hk)]

/-- Adjacent entries of a `(· ≤ ·)`-chain are ordered. -/
theorem chain_le_getQ {l : List ℚ} (h : List.Chain' (· ≤ ·) l) {i : ℕ}
    (hi : i + 1 < l.length) : getQ l i ≤ getQ l (i + 1) := by
  have hp := List.chain'_iff_pairwise.mp h
  have := List.pairwise_iff_getElem.mp hp i (i + 1) (by omega) hi (by omega)
  rw [getQ, List.getD_eq_getElem _ _ (by omega), getQ, List.getD_eq_getElem _ _ hi]
  exact this

/-- C8 (counterexample): on an empty time axis with no bounds the measure
computation does fail, but with the `IndexError` from `delt[0]`, not the
"measure undefined" `ValueError` — so "fails with a measure-undefined error
iff exactly one point and no bounds" is false, and the "returns a width per
time step in every other case" half fails at zero points as well. -/
theorem compute_time_measures_empty_index_error :
    compute_time_measures [] none = Except.error MeasureError.indexError
    ∧ compute_time_measures [] none ≠ Except.error MeasureError.valueError := by
  constructor
  · rfl
  · intro h
    exact MeasureError.noConfusion (Except.error.inj h)

/-- C8 (amended): with no usable bounds, the computation raises the
"measure undefined" `ValueError` iff the time axis has exactly one point; on
at least two points it returns one width per time step; on zero points it
raises an `IndexError` instead.  With a bounds array it always returns the
per-step widths `upper - lower` (in days). -/
theorem compute_time_measures_spec (time : List ℚ)
    (bounds : Option (List (ℚ × ℚ))) :
    (compute_time_measures time bounds = Except.error MeasureError.valueError
      ↔ bounds = none ∧ time.length = 1)
    ∧ (bounds = none → time.length = 0 →
        compute_time_measures time bounds = Except.error MeasureError.indexError)
    ∧ (bounds = none → 2 ≤ time.length →
        ∃ ws, compute_time_measures time bounds = Except.ok ws
          ∧ ws.length = time.length)
    ∧ (∀ b, bounds = some b →
        compute_time_measures time bounds
          = Except.ok (b.map fun p => nsToDays (p.2 - p.1))) := by
  cases bounds with
  | some b =>
    refine ⟨?_, ?_, ?_, ?_⟩
    · simp [compute_time_measures]
    · intro h
      cases h
    · intro h
      cases h
    · intro b' hb'
      cases hb'
      rfl
  | none =>
    unfold compute_time_measures measure1d
    by_cases h1 : time.length = 1
    · rw [if_pos h1]
      exact ⟨by simp [h1], by intro _ h0; omega, by intro _ h2; omega,
        by intro b hb; cases hb⟩
    · rw [if_neg h1]
      by_cases h0 : time.length = 0
      · have hd : ((List.range (time.length - 1)).map
            (fun i : ℕ => nsToDays (getQ time (i + 1) - getQ time i))).length = 0 := by
          simp [h0]
        rw [if_pos hd]
        refine ⟨?_, fun _ _ => rfl, by intro _ h2; omega, by intro b hb; cases hb⟩
        constructor
        · intro h
          exact absurd (Except.error.inj h) (by intro hc; cases hc)
        · intro ⟨_, hc⟩
          exact absurd hc h1
      · have hd : ¬ ((List.range (time.length - 1)).map
            (fun i : ℕ => nsToDays (getQ time (i + 1) - getQ time i))).length = 0 := by
          simp
          omega
        rw [if_neg hd]
        refine ⟨?_, by intro _ hc; omega, ?_, by intro b hb; cases hb⟩
        · constructor
          · intro h
            cases h
          · intro ⟨_, hc⟩
            exact absurd hc h1
        · intro _ _
          refine ⟨_, rfl, ?_⟩
          simp

/-- C8 witness: concrete applications of `compute_time_measures_spec`: the
zero-point/no-bounds case raises `IndexError`, and a three-point axis yields
three widths. -/
theorem compute_time_measures_spec_witness :
    compute_time_measures [] none = Except.error MeasureError.indexError
    ∧ ∃ ws, compute_time_measures [0, 1, 2] none = Except.ok ws
        ∧ ws.length = ([(0 : ℚ), 1, 2]).length :=
  ⟨(compute_time_measures_spec [] none).2.1 rfl rfl,
   (compute_time_measures_spec [0, 1, 2] none).2.2.1 rfl (by norm_num)⟩

/-- C5: every measure array is non-negative wherever it is defined: time
widths from an ordered bounds array; time widths synthesized from ascending
coordinates; cell areas from ordered lat/lon bound arrays (given the
monotonicity that `sin(π x/180)` enjoys on latitudes and a non-negative
degree-to-radian factor); and cell areas synthesized from centroids, which
are absolute values. -/
theorem measure_arrays_nonneg (sind : ℚ → ℚ) (rad : ℚ)
    (hsind : Monotone sind) (hrad : 0 ≤ rad) :
    (∀ (time : List ℚ) (b : List (ℚ × ℚ)), (∀ p ∈ b, p.1 ≤ p.2) →
      ∀ ws, compute_time_measures time (some b) = Except.ok ws →
        ∀ w ∈ ws, 0 ≤ w)
    ∧ (∀ time : List ℚ, List.Chain' (· ≤ ·) time →
        ∀ ws, compute_time_measures time none = Except.ok ws →
          ∀ w ∈ ws, 0 ≤ w)
    ∧ (∀ latb lonb : List (ℚ × ℚ), (∀ p ∈ latb, p.1 ≤ p.2) →
        (∀ p ∈ lonb, p.1 ≤ p.2) →
        ∀ row ∈ cell_measures_bounds sind rad latb lonb, ∀ w ∈ row, 0 ≤ w)
    ∧ (∀ lat lon : List ℚ,
        ∀ row ∈ cell_measures_centroids sind rad lat lon, ∀ w ∈ row, 0 ≤ w) := by
  refine ⟨?_, ?_, ?_, ?_⟩
  · intro time b hb ws hws w hw
    cases Except.ok.inj hws
    rcases List.mem_map.mp hw with ⟨p, hp, rfl⟩
    have := hb p hp
    unfold nsToDays
    exact div_nonneg (by linarith) (by norm_num)
  · intro time hchain ws hws w hw
    unfold compute_time_measures measure1d at hws
    by_cases h1 : time.length = 1
    · rw [if_pos h1] at hws
      cases hws
    rw [if_neg h1] at hws
    by_cases h0 : ((List.range (time.length - 1)).map
        (fun i : ℕ => nsToDays (getQ time (i + 1) - getQ time i))).length = 0
    · rw [if_pos h0] at hws
      cases hws
    rw [if_neg h0] at hws
    cases Except.ok.inj hws
    set delt := (List.range (time.length - 1)).map
      (fun i : ℕ => nsToDays (getQ time (i + 1) - getQ time i)) with hdelt
    have hdeltnn : ∀ x ∈ delt, 0 ≤ x := by
      intro x hx
      rcases List.mem_map.mp hx with ⟨i, hi, rfl⟩
      have hi' : i + 1 < time.length := by
        have := List.mem_range.mp hi
        omega
      have hle := chain_le_getQ hchain hi'
      unfold nsToDays
      exact div_nonneg (by linarith) (by norm_num)
    have hpad : ∀ x ∈ getQ delt 0 :: delt ++ [getQ delt (delt.length - 1)], 0 ≤ x := by
      intro x hx
      rcases List.mem_cons.mp hx with h | h
      · subst h
        exact getQ_nonneg hdeltnn 0
      rcases List.mem_append.mp h with h | h
      · exact hdeltnn x h
      · rcases List.mem_singleton.mp h with rfl
        exact getQ_nonneg hdeltnn _
    rcases List.mem_map.mp hw with ⟨i, _, rfl⟩
    have ha := getQ_nonneg hpad i
    have hb := getQ_nonneg hpad (i + 1)
    linarith
  · intro latb lonb hlat hlon row hrow w hw
    rcases List.mem_map.mp hrow with ⟨lb, hlb, rfl⟩
    rcases List.mem_map.mp hw with ⟨pb, hpb, rfl⟩
    have h1 : 0 ≤ sind lb.2 - sind lb.1 := by
      have := hsind (hlat lb hlb)
      linarith
    have h2 : 0 ≤ pb.2 - pb.1 := by
      have := hlon pb hpb
      linarith
    have hR : (0 : ℚ) ≤ earth_radius := by norm_num [earth_radius]
    exact mul_nonneg (mul_nonneg hR h1) (mul_nonneg hR (mul_nonneg hrad h2))
  · intro lat lon row hrow w hw
    rcases List.mem_map.mp hrow with ⟨dy, hdy, rfl⟩
    rcases List.mem_map.mp hw with ⟨dx, hdx, rfl⟩
    rcases List.mem_map.mp hdy with ⟨i, _, rfl⟩
    rcases List.mem_map.mp hdx with ⟨j, _, rfl⟩
    exact mul_nonneg (abs_nonneg _) (abs_nonneg _)

/-! ### Region restriction and spatial integration (C2, C4) -/

theorem getD_range_map {α : Type} (f : ℕ → α) (dflt : α) {n i : ℕ} (h : i < n) :
    ((List.range n).map f).getD i dflt = f i := by
  simp [List.getD_eq_getElem?_getD, List.getElem?_range h]

/-- Masked-then-reduced sum equals the sum over only the in-region cells. -/
theorem weightedSum_masked (sind : ℚ → ℚ) (rad : ℚ) (r : BoxRegion) (var : GridDS) :
    weightedSum (regionMaskedData r var)
        (cell_measures_centroids sind rad var.lat var.lon)
      = spec_region_sum sind rad r var := by
  unfold weightedSum spec_region_sum regionMaskedData
  simp only [List.length_map, List.length_range]
  refine congrArg listSum (List.map_congr_left ?_)
  intro i hi
  rw [List.mem_range] at hi
  rw [getD_range_map _ _ hi]
  simp only [List.length_map, List.length_range]
  refine congrArg listSum (List.map_congr_left ?_)
  intro j hj
  rw [List.mem_range] at hj
  have hcell : getO
      ((List.range var.lat.length).map fun i : ℕ =>
        (List.range var.lon.length).map fun j : ℕ =>
          if insideBox r (getQ var.lat i) (getQ var.lon j) then getO var.data i j
          else none) i j
      = if insideBox r (getQ var.lat i) (getQ var.lon j) then getO var.data i j
        else none := by
    unfold getO
    rw [getD_range_map _ _ hi, getD_range_map _ _ hj]
  rw [hcell]
  by_cases hin : insideBox r (getQ var.lat i) (getQ var.lon j)
  · rw [if_pos hin, if_pos hin]
  · rw [if_neg hin, if_neg hin]

/-- Masked-then-reduced weight total equals the weight total over only the
in-region valid cells. -/
theorem sumOfWeights_masked (sind : ℚ → ℚ) (rad : ℚ) (r : BoxRegion) (var : GridDS) :
    sumOfWeights (regionMaskedData r var)
        (cell_measures_centroids sind rad var.lat var.lon)
      = spec_region_weights sind rad r var := by
  unfold sumOfWeights spec_region_weights regionMaskedData
  simp only [List.length_map, List.length_range]
  refine congrArg listSum (List.map_congr_left ?_)
  intro i hi
  rw [List.mem_range] at hi
  rw [getD_range_map _ _ hi]
  simp only [List.length_map, List.length_range]
  refine congrArg listSum (List.map_congr_left ?_)
  intro j hj
  rw [List.mem_range] at hj
  have hcell : getO
      ((List.range var.lat.length).map fun i : ℕ =>
        (List.range var.lon.length).map fun j : ℕ =>
          if insideBox r (getQ var.lat i) (getQ var.lon j) then getO var.data i j
          else none) i j
      = if insideBox r (getQ var.lat i) (getQ var.lon j) then getO var.data i j
        else none := by
    unfold getO
    rw [getD_range_map _ _ hi, getD_range_map _ _ hj]
  rw [hcell]
  by_cases hin : insideBox r (getQ var.lat i) (getQ var.lon j)
  · rw [if_pos hin, if_pos hin]
  · rw [if_neg hin, if_neg hin]

/-- C2: for every field and every registered (box) region label,
`integrate_space` restricts the field to the region (NaN outside, via the
registry) and then reduces, and the NaN cells contribute zero weight, so the
weighted sum equals the sum over only the in-region valid cells and the
weighted mean equals the in-region sum divided by the in-region weight
total. -/
theorem integrate_space_region_is_in_region_reduction (sind : ℚ → ℚ) (rad : ℚ)
    (var : GridDS) (label : String) (r : BoxRegion)
    (hr : lookupRegion label = some r) :
    integrate_space sind rad var (some label) false
      = Except.ok (spec_region_sum sind rad r var)
    ∧ integrate_space sind rad var (some label) true
      = Except.ok (spec_region_sum sind rad r var
          / spec_region_weights sind rad r var) := by
  unfold integrate_space restrict_to_region restrict_variable
  dsimp only
  rw [hr]
  dsimp only
  constructor
  · rw [if_neg (by simp)]
    exact congrArg Except.ok (weightedSum_masked sind rad r var)
  · rw [if_pos rfl]
    rw [weightedSum_masked sind rad r var, sumOfWeights_masked sind rad r var]

/-- C2 witness: a concrete application of
`integrate_space_region_is_in_region_reduction` to a one-cell field and the
"global" label. -/
theorem integrate_space_region_witness :
    integrate_space id 1 ⟨[0], [10], [[some 2]]⟩ (some "global") false
      = Except.ok (spec_region_sum id 1 ⟨-89.999, 89.999, -179.999, 179.999⟩
          ⟨[0], [10], [[some 2]]⟩) :=
  (integrate_space_region_is_in_region_reduction id 1 ⟨[0], [10], [[some 2]]⟩
    "global" ⟨-89.999, 89.999, -179.999, 179.999⟩ rfl).1

/-- C4 (counterexample): `restrict("global", f)` does not leave every field
with lat/lon axes unchanged: the "global" box spans longitudes
`[-179.999, 179.999]`, so a field on the `[0, 360]` longitude convention
(here a single cell at `lon = 200`) is masked to NaN. -/
theorem restrict_global_masks_out_of_box :
    restrict_variable "global" ⟨[0], [200], [[some 5]]⟩
      = Except.ok ⟨[0], [200], [[none]]⟩
    ∧ restrict_variable "global" ⟨[0], [200], [[some 5]]⟩
      ≠ Except.ok ⟨[0], [200], [[some 5]]⟩ := by
  have h1 : restrict_variable "global" ⟨[0], [200], [[some 5]]⟩
      = Except.ok ⟨[0], [200], [[none]]⟩ := by
    norm_num [restrict_variable, lookupRegion, defaultRegions, regionMaskedData,
      insideBox, getO, getQ, List.range_succ]
  refine ⟨h1, ?_⟩
  rw [h1]
  intro h
  simp at h

/-- C4 (amended): `restrict("global", f)` leaves `f` unchanged for every
well-formed field whose latitudes lie in `[-89.999, 89.999]` and longitudes
in `[-179.999, 179.999]` (the seeded "global" box), and `restrict` with any
label absent from the registry raises the lookup `KeyError` carrying that
label. -/
theorem restrict_region_spec :
    (∀ var : GridDS,
        (∀ la ∈ var.lat, -89.999 ≤ la ∧ la ≤ 89.999) →
        (∀ lo ∈ var.lon, -179.999 ≤ lo ∧ lo ≤ 179.999) →
        wellFormed var →
        restrict_variable "global" var = Except.ok var)
    ∧ (∀ (label : String) (var : GridDS), lookupRegion label = none →
        restrict_variable label var = Except.error label) := by
  constructor
  · intro var hla hlo hwf
    obtain ⟨hlen, hrow⟩ := hwf
    unfold restrict_variable
    have hg : lookupRegion "global" = some ⟨-89.999, 89.999, -179.999, 179.999⟩ := rfl
    rw [hg]
    refine congrArg Except.ok ?_
    cases var with
    | mk lat lon data =>
      simp only at hla hlo hlen hrow ⊢
      simp only [regionMaskedData, GridDS.mk.injEq, true_and]
      refine List.ext_getElem (by simp [hlen]) ?_
      intro i h1 h2
      have hi : i < lat.length := by simpa using h1
      simp only [List.getElem_map, List.getElem_range]
      have hins : ∀ j : ℕ, j < lon.length →
          insideBox ⟨-89.999, 89.999, -179.999, 179.999⟩ (getQ lat i) (getQ lon j)
            = true := by
        intro j hj
        have hlamem : getQ lat i ∈ lat := by
          rw [getQ, List.getD_eq_getElem _ _ hi]
          exact List.getElem_mem hi
        have hlomem : getQ lon j ∈ lon := by
          rw [getQ, List.getD_eq_getElem _ _ hj]
          exact List.getElem_mem hj
        have h3 := hla _ hlamem
        have h4 := hlo _ hlomem
        simp only [insideBox, Bool.and_eq_true, decide_eq_true_eq]
        exact ⟨⟨⟨h3.1, h3.2⟩, h4.1⟩, h4.2⟩
      have hrowlen : data[i].length = lon.length := hrow data[i] (List.getElem_mem h2)
      refine List.ext_getElem (by simp [hrowlen]) ?_
      intro j g1 g2
      have hj : j < lon.length := by simpa using g1
      simp only [List.getElem_map, List.getElem_range]
      rw [if_pos (hins j hj)]
      unfold getO
      rw [List.getD_eq_getElem _ _ (by omega : i < data.length),
        List.getD_eq_getElem _ _ (by omega : j < data[i].length)]
  · intro label var hnone
    unfold restrict_variable
    rw [hnone]

/-- C4 witness: concrete applications of `restrict_region_spec`: an in-box
field passes through "global" unchanged, and an unknown label errors. -/
theorem restrict_region_spec_witness :
    restrict_variable "global" ⟨[0], [10], [[some 5]]⟩
      = Except.ok ⟨[0], [10], [[some 5]]⟩
    ∧ restrict_variable "nonexistent" ⟨[0], [10], [[some 5]]⟩
      = Except.error "nonexistent" :=
  ⟨restrict_region_spec.1 ⟨[0], [10], [[some 5]]⟩
      (by intro la hla; rcases List.mem_singleton.mp hla with rfl; norm_num)
      (by intro lo hlo; rcases List.mem_singleton.mp hlo with rfl; norm_num)
      ⟨rfl, by simp⟩,
   restrict_region_spec.2 "nonexistent" ⟨[0], [10], [[some 5]]⟩ rfl⟩

/-! ### Coarsening (C3) -/

theorem listSum_eq_sum (l : List ℚ) : listSum l = l.sum := by
  induction l with
  | nil => rfl
  | cons x xs ih =>
    unfold listSum at ih ⊢
    rw [List.foldr_cons, ih, List.sum_cons]

theorem listSum_range (f : ℕ → ℚ) (n : ℕ) :
    listSum ((List.range n).map f) = ∑ i ∈ Finset.range n, f i := by
  induction n with
  | zero => simp [listSum]
  | succ n ih =>
    rw [List.range_succ, List.map_append, listSum_eq_sum, List.sum_append,
      ← listSum_eq_sum, ih, Finset.sum_range_succ, ← listSum_eq_sum]
    simp [listSum]

theorem coarsen_lat (sind : ℚ → ℚ) (rad res : ℚ) (ds : GridDS) :
    (coarsen_dataset sind rad res ds).lat
      = (List.range (coarseSize (fine_per_coarse res ds.lat) ds.lat.length)).map
          fun k : ℕ => blockMean ds.lat (fine_per_coarse res ds.lat) k := rfl

theorem coarsen_lon (sind : ℚ → ℚ) (rad res : ℚ) (ds : GridDS) :
    (coarsen_dataset sind rad res ds).lon
      = (List.range (coarseSize (fine_per_coarse res ds.lat) ds.lon.length)).map
          fun l : ℕ => blockMean ds.lon (fine_per_coarse res ds.lat) l := rfl

theorem coarsen_data (sind : ℚ → ℚ) (rad res : ℚ) (ds : GridDS) :
    (coarsen_dataset sind rad res ds).data
      = (List.range (coarseSize (fine_per_coarse res ds.lat) ds.lat.length)).map
          (fun k : ℕ =>
            (List.range (coarseSize (fine_per_coarse res ds.lat) ds.lon.length)).map
              fun l : ℕ =>
                if countValid ds.data (fine_per_coarse res ds.lat) k l = 0 then none
                else some (blockMass ds.data
                    (cell_measures_centroids sind rad ds.lat ds.lon)
                    (fine_per_coarse res ds.lat) k l
                  / getQ ((cell_measures_centroids sind rad
                      (coarsen_dataset sind rad res ds).lat
                      (coarsen_dataset sind rad res ds).lon).getD k []) l)) := rfl

/-- NaN iff zero valid contributing fine cells (the third C3 conjunct, as a
standalone lemma). -/
theorem coarsen_nan_iff_aux (sind : ℚ → ℚ) (rad res : ℚ) (ds : GridDS) {k l : ℕ}
    (hk : k < coarseSize (fine_per_coarse res ds.lat) ds.lat.length)
    (hl : l < coarseSize (fine_per_coarse res ds.lat) ds.lon.length) :
    getO (coarsen_dataset sind rad res ds).data k l = none
      ↔ countValid ds.data (fine_per_coarse res ds.lat) k l = 0 := by
  rw [getO, coarsen_data, getD_range_map _ _ hk, getD_range_map _ _ hl]
  by_cases h : countValid ds.data (fine_per_coarse res ds.lat) k l = 0
  · rw [if_pos h]
    exact ⟨fun _ => h, fun _ => rfl⟩
  · rw [if_neg h]
    exact ⟨fun hx => absurd hx (Option.some_ne_none _), fun hx => absurd hx h⟩

/-- C3 (counterexample): a constant field `c = 1` on a uniform 4x4 grid with
one NaN fine cell.  The top-left coarse cell still has three valid
contributors (so it is valid), but its value is `3/4`, not `1`: the block
mass integrates only the valid cells while the divisor is the full coarse
cell measure. -/
theorem coarsen_not_constant_with_gaps :
    getO (coarsen_dataset id 1 2
        ⟨[0, 1, 2, 3], [0, 1, 2, 3],
         [[none, some 1, some 1, some 1],
          [some 1, some 1, some 1, some 1],
          [some 1, some 1, some 1, some 1],
          [some 1, some 1, some 1, some 1]]⟩).data 0 0
      = some (3/4)
    ∧ ((3 : ℚ)/4) ≠ 1 := by
  constructor
  · have hf : fine_per_coarse 2 [0, 1, 2, 3] = 2 := by
      have h1 : round ((2 : ℚ) / |meanLatSpacing [0, 1, 2, 3]|) = 2 := by
        norm_num [meanLatSpacing, getQ, List.range_succ, listSum, round_eq]
      unfold fine_per_coarse
      rw [h1]
      rfl
    have hclat : (List.range (coarseSize 2 ([0, 1, 2, 3] : List ℚ).length)).map
        (fun k : ℕ => blockMean [0, 1, 2, 3] 2 k) = [1/2, 5/2] := by
      have e0 : blockMean [(0 : ℚ), 1, 2, 3] 2 0 = 1/2 := by
        unfold blockMean
        rw [Finset.filter_true_of_mem (by decide)]
        norm_num [Finset.sum_range_succ, getQ]
      have e1 : blockMean [(0 : ℚ), 1, 2, 3] 2 1 = 5/2 := by
        unfold blockMean
        rw [Finset.filter_true_of_mem (by decide)]
        norm_num [Finset.sum_range_succ, getQ]
      rw [show coarseSize 2 ([0, 1, 2, 3] : List ℚ).length = 2 from by decide,
        show List.range 2 = [0, 1] from rfl]
      simp [e0, e1]
    have hmass : blockMass
        [[none, some 1, some 1, some 1],
         [some 1, some 1, some 1, some 1],
         [some 1, some 1, some 1, some 1],
         [some 1, some 1, some 1, some 1]]
        (cell_measures_centroids id 1 [0, 1, 2, 3] [0, 1, 2, 3]) 2 0 0
        = 3 * (earth_radius * earth_radius) := by
      norm_num [blockMass, cell_measures_centroids, cell_widths_lat,
        cell_widths_lon, synthEdges, getQ, getO, List.range_succ,
        Finset.sum_range_succ, earth_radius]
    have hcm : getQ ((cell_measures_centroids id 1 [1/2, 5/2] [1/2, 5/2]).getD 0 []) 0
        = (2 * earth_radius) * (2 * earth_radius) := by
      norm_num [cell_measures_centroids, cell_widths_lat, cell_widths_lon,
        synthEdges, getQ, List.range_succ, earth_radius]
    rw [getO, coarsen_data]
    dsimp only
    rw [hf, coarsen_lat, coarsen_lon]
    dsimp only
    rw [hf, hclat]
    rw [show coarseSize 2 ([0, 1, 2, 3] : List ℚ).length = 2 from by decide]
    rw [getD_range_map _ _ (by norm_num), getD_range_map _ _ (by norm_num)]
    rw [if_neg (by decide)]
    refine congrArg some ?_
    rw [hmass, hcm]
    norm_num [earth_radius]
  · norm_num

theorem sum_range_qcast (n : ℕ) :
    (∑ t ∈ Finset.range n, (t : ℚ)) = n * (n - 1) / 2 := by
  induction n with
  | zero => simp
  | succ n ih =>
    rw [Finset.sum_range_succ, ih]
    push_cast
    ring

theorem coarseSize_mul {f : ℕ} (hf : 1 ≤ f) (K : ℕ) : coarseSize f (f * K) = K := by
  unfold coarseSize
  have h1 : f * K + f - 1 = f - 1 + f * K := by omega
  rw [h1, Nat.add_mul_div_left _ _ (by omega : 0 < f), Nat.div_eq_of_lt (by omega)]
  omega

theorem blockMean_uniGrid (a d : ℚ) {f K k : ℕ} (hf : 1 ≤ f) (hk : k < K) :
    blockMean (uniGrid a d (f * K)) f k
      = (a + ((f : ℚ) - 1) / 2 * d) + (k : ℚ) * ((f : ℚ) * d) := by
  unfold blockMean
  rw [Finset.filter_true_of_mem (by
    intro t ht
    rw [Finset.mem_range] at ht
    rw [uniGrid_length]
    have : f * k + t < f * K := by
      calc f * k + t < f * k + f := by omega
      _ = f * (k + 1) := by ring
      _ ≤ f * K := Nat.mul_le_mul_left f (by omega)
    exact this)]
  have hsum : (∑ t ∈ Finset.range f, getQ (uniGrid a d (f * K)) (f * k + t))
      = ∑ t ∈ Finset.range f, (a + ((f * k : ℕ) : ℚ) * d + (t : ℚ) * d) := by
    refine Finset.sum_congr rfl ?_
    intro t ht
    rw [Finset.mem_range] at ht
    rw [getQ_uniGrid a d (by
      calc f * k + t < f * k + f := by omega
      _ = f * (k + 1) := by ring
      _ ≤ f * K := Nat.mul_le_mul_left f (by omega))]
    push_cast
    ring
  dsimp only
  rw [hsum, Finset.sum_add_distrib, Finset.sum_const, ← Finset.sum_mul,
    sum_range_qcast, Finset.card_range]
  have hfq : (f : ℚ) ≠ 0 := by
    have : (0 : ℚ) < f := by exact_mod_cast (by omega : 0 < f)
    linarith
  push_cast
  field_simp
  ring

theorem coarse_axis_uniform (a d : ℚ) {f K : ℕ} (hf : 1 ≤ f) :
    (List.range K).map (fun k : ℕ => blockMean (uniGrid a d (f * K)) f k)
      = uniGrid (a + ((f : ℚ) - 1) / 2 * d) ((f : ℚ) * d) K := by
  conv_rhs => rw [uniGrid]
  apply List.map_congr_left
  intro k hk
  rw [List.mem_range] at hk
  rw [blockMean_uniGrid a d hf hk]

theorem getQ_cell_widths_lat (sind : ℚ → ℚ) (a d : ℚ) {n i : ℕ} (hn : 2 ≤ n)
    (hi : i < n) :
    getQ (cell_widths_lat sind (uniGrid a d n)) i
      = |earth_radius * (sind (a - d/2 + ((i : ℚ) + 1) * d)
          - sind (a - d/2 + (i : ℚ) * d))| := by
  unfold cell_widths_lat
  simp only [uniGrid_length]
  rw [getQ_range_map _ hi, synthEdges_uniGrid a d hn,
    getQ_uniGrid _ _ (by omega : i + 1 < n + 1), getQ_uniGrid _ _ (by omega : i < n + 1)]
  push_cast
  ring_nf

theorem getQ_cell_widths_lon (rad : ℚ) (b e : ℚ) {m j : ℕ} (hm : 2 ≤ m)
    (hj : j < m) :
    getQ (cell_widths_lon rad (uniGrid b e m)) j = |earth_radius * (rad * e)| := by
  unfold cell_widths_lon
  simp only [uniGrid_length]
  rw [getQ_range_map _ hj, synthEdges_uniGrid b e hm,
    getQ_uniGrid _ _ (by omega : j + 1 < m + 1), getQ_uniGrid _ _ (by omega : j < m + 1)]
  refine congrArg abs ?_
  push_cast
  ring

/-- Per latitude block, the fine strip widths sum to the coarse strip width
(telescoping of `sind` over the shared edge set). -/
theorem width_sum_lat (sind : ℚ → ℚ) (hsind : Monotone sind) (a d : ℚ)
    (hd : 0 < d) {f K k : ℕ} (hf : 1 ≤ f) (hK : 2 ≤ K) (hk : k < K) :
    ∑ t ∈ Finset.range f, getQ (cell_widths_lat sind (uniGrid a d (f * K))) (f * k + t)
      = getQ (cell_widths_lat sind
          (uniGrid (a + ((f : ℚ) - 1) / 2 * d) ((f : ℚ) * d) K)) k := by
  have hfK : 2 ≤ f * K := le_trans hK (Nat.le_mul_of_pos_left K (by omega))
  have hR : (0 : ℚ) ≤ earth_radius := by norm_num [earth_radius]
  have hterm : ∀ t ∈ Finset.range f,
      getQ (cell_widths_lat sind (uniGrid a d (f * K))) (f * k + t)
        = earth_radius * (sind (a - d/2 + (((f : ℚ) * k + t) + 1) * d)
            - sind (a - d/2 + ((f : ℚ) * k + t) * d)) := by
    intro t ht
    rw [Finset.mem_range] at ht
    have hidx : f * k + t < f * K := by
      calc f * k + t < f * k + f := by omega
      _ = f * (k + 1) := by ring
      _ ≤ f * K := Nat.mul_le_mul_left f (by omega)
    rw [getQ_cell_widths_lat sind a d hfK hidx]
    rw [abs_of_nonneg (mul_nonneg hR (sub_nonneg.mpr (hsind (by
      push_cast
      nlinarith))))]
    push_cast
    ring_nf
  rw [Finset.sum_congr rfl hterm]
  have htel : ∑ t ∈ Finset.range f,
      earth_radius * (sind (a - d/2 + (((f : ℚ) * k + t) + 1) * d)
        - sind (a - d/2 + ((f : ℚ) * k + t) * d))
      = (fun u : ℕ => earth_radius * sind (a - d/2 + ((f : ℚ) * k + u) * d)) f
        - (fun u : ℕ => earth_radius * sind (a - d/2 + ((f : ℚ) * k + u) * d)) 0 := by
    refine Eq.trans (Finset.sum_congr rfl ?_)
      (Finset.sum_range_sub
        (fun u : ℕ => earth_radius * sind (a - d/2 + ((f : ℚ) * k + u) * d)) f)
    intro t ht
    push_cast
    ring_nf
  rw [htel]
  dsimp only
  rw [getQ_cell_widths_lat sind _ _ hK hk]
  rw [abs_of_nonneg (mul_nonneg hR (sub_nonneg.mpr (hsind (by nlinarith [hd,
    (by exact_mod_cast (by omega : (1 : ℕ) ≤ f) : (1 : ℚ) ≤ (f : ℚ))]))))]
  push_cast
  ring_nf

/-- Per longitude block, the fine cell widths sum to the coarse cell width. -/
theorem width_sum_lon (rad : ℚ) (b e : ℚ) (he : 0 < e) {f L l : ℕ}
    (hf : 1 ≤ f) (hL : 2 ≤ L) (hl : l < L) :
    ∑ s ∈ Finset.range f, getQ (cell_widths_lon rad (uniGrid b e (f * L))) (f * l + s)
      = getQ (cell_widths_lon rad
          (uniGrid (b + ((f : ℚ) - 1) / 2 * e) ((f : ℚ) * e) L)) l := by
  have hfL : 2 ≤ f * L := le_trans hL (Nat.le_mul_of_pos_left L (by omega))
  have hterm : ∀ s ∈ Finset.range f,
      getQ (cell_widths_lon rad (uniGrid b e (f * L))) (f * l + s)
        = |earth_radius * (rad * e)| := by
    intro s hs
    rw [Finset.mem_range] at hs
    have hidx : f * l + s < f * L := by
      calc f * l + s < f * l + f := by omega
      _ = f * (l + 1) := by ring
      _ ≤ f * L := Nat.mul_le_mul_left f (by omega)
    exact getQ_cell_widths_lon rad b e hfL hidx
  rw [Finset.sum_congr rfl hterm, Finset.sum_const, Finset.card_range,
    getQ_cell_widths_lon rad _ _ hL hl]
  have h1 : earth_radius * (rad * ((f : ℚ) * e))
      = (f : ℚ) * (earth_radius * (rad * e)) := by ring
  conv_rhs => rw [h1, abs_mul, abs_of_nonneg (by positivity : (0 : ℚ) ≤ ((f : ℚ)))]
  rw [nsmul_eq_mul]

/-- Accessing one entry of the centroid-branch cell-measure grid. -/
theorem getQ_cell_measures_centroids (sind : ℚ → ℚ) (rad : ℚ)
    (lat lon : List ℚ) {i j : ℕ} (hi : i < lat.length) (hj : j < lon.length) :
    getQ ((cell_measures_centroids sind rad lat lon).getD i []) j
      = getQ (cell_widths_lat sind lat) i * getQ (cell_widths_lon rad lon) j := by
  have hW : (cell_widths_lat sind lat).length = lat.length := by
    simp [cell_widths_lat]
  have hX : (cell_widths_lon rad lon).length = lon.length := by
    simp [cell_widths_lon]
  unfold cell_measures_centroids
  rw [List.getD_eq_getElem _ _ (by rw [List.length_map, hW]; exact hi),
    List.getElem_map]
  unfold getQ
  rw [List.getD_eq_getElem _ _ (by rw [List.length_map, hX]; exact hj),
    List.getElem_map]
  rw [List.getD_eq_getElem _ _ (hW ▸ hi), List.getD_eq_getElem _ _ (hX ▸ hj)]

/-- On an all-valid constant field over uniform, evenly divisible grids,
every coarse cell recovers the constant: the block mass is the constant
times the summed fine measures, which telescope to the coarse measure. -/
theorem coarsen_constant_cells (sind : ℚ → ℚ) (rad res : ℚ)
    (hsind : StrictMono sind) (hrad : 0 < rad)
    (a d b e c : ℚ) (hd : 0 < d) (he : 0 < e) (f K L : ℕ)
    (hf : 1 ≤ f) (hK : 2 ≤ K) (hL : 2 ≤ L)
    (ds : GridDS)
    (hlat : ds.lat = uniGrid a d (f * K))
    (hlon : ds.lon = uniGrid b e (f * L))
    (hdata : ds.data = (List.range (f * K)).map fun _ : ℕ =>
        (List.range (f * L)).map fun _ : ℕ => some c)
    (hres : fine_per_coarse res ds.lat = f) :
    ∀ k, k < K → ∀ l, l < L →
      getO (coarsen_dataset sind rad res ds).data k l = some c := by
  intro k hk l hl
  have hR : (0 : ℚ) < earth_radius := by norm_num [earth_radius]
  have hfq : (0 : ℚ) < (f : ℚ) := by exact_mod_cast (by omega : 0 < f)
  have hKsz : coarseSize f ds.lat.length = K := by
    rw [hlat, uniGrid_length]
    exact coarseSize_mul hf K
  have hLsz : coarseSize f ds.lon.length = L := by
    rw [hlon, uniGrid_length]
    exact coarseSize_mul hf L
  have hidxK : ∀ t, t < f → f * k + t < f * K := by
    intro t ht
    calc f * k + t < f * k + f := by omega
    _ = f * (k + 1) := by ring
    _ ≤ f * K := Nat.mul_le_mul_left f (by omega)
  have hidxL : ∀ s, s < f → f * l + s < f * L := by
    intro s hs
    calc f * l + s < f * l + f := by omega
    _ = f * (l + 1) := by ring
    _ ≤ f * L := Nat.mul_le_mul_left f (by omega)
  have hvalid : ∀ t, t < f → ∀ s, s < f →
      getO ds.data (f * k + t) (f * l + s) = some c := by
    intro t ht s hs
    rw [hdata, getO, getD_range_map _ _ (hidxK t ht), getD_range_map _ _ (hidxL s hs)]
  rw [getO, coarsen_data, hres, hKsz, hLsz, getD_range_map _ _ hk,
    getD_range_map _ _ hl]
  have hcnt : countValid ds.data f k l = f * f := by
    unfold countValid
    have : ∀ t ∈ Finset.range f,
        (∑ s ∈ Finset.range f,
          (match getO ds.data (f * k + t) (f * l + s) with
           | some _ => 1
           | none => 0)) = f := by
      intro t ht
      rw [Finset.mem_range] at ht
      have : ∀ s ∈ Finset.range f,
          (match getO ds.data (f * k + t) (f * l + s) with
           | some _ => (1 : ℕ)
           | none => 0) = 1 := by
        intro s hs
        rw [Finset.mem_range] at hs
        rw [hvalid t ht s hs]
      rw [Finset.sum_congr rfl this, Finset.sum_const, Finset.card_range, smul_eq_mul,
        mul_one]
    rw [Finset.sum_congr rfl this, Finset.sum_const, Finset.card_range, smul_eq_mul]
  rw [if_neg (by
    rw [hcnt]
    intro hzero
    have h2 : 0 < f * f := Nat.mul_pos (by omega) (by omega)
    omega)]
  refine congrArg some ?_
  have hclat : (coarsen_dataset sind rad res ds).lat
      = uniGrid (a + ((f : ℚ) - 1) / 2 * d) ((f : ℚ) * d) K := by
    rw [coarsen_lat, hres, hKsz, hlat, coarse_axis_uniform a d hf]
  have hclon : (coarsen_dataset sind rad res ds).lon
      = uniGrid (b + ((f : ℚ) - 1) / 2 * e) ((f : ℚ) * e) L := by
    rw [coarsen_lon, hres, hLsz, hlon, coarse_axis_uniform b e hf]
  rw [hclat, hclon]
  have hmass : blockMass ds.data (cell_measures_centroids sind rad ds.lat ds.lon) f k l
      = c * ((∑ t ∈ Finset.range f,
            getQ (cell_widths_lat sind (uniGrid a d (f * K))) (f * k + t))
          * (∑ s ∈ Finset.range f,
            getQ (cell_widths_lon rad (uniGrid b e (f * L))) (f * l + s))) := by
    unfold blockMass
    have hper : ∀ t ∈ Finset.range f,
        (∑ s ∈ Finset.range f,
          (match getO ds.data (f * k + t) (f * l + s) with
           | some v => v * getQ ((cell_measures_centroids sind rad ds.lat
               ds.lon).getD (f * k + t) []) (f * l + s)
           | none => 0))
        = (c * getQ (cell_widths_lat sind (uniGrid a d (f * K))) (f * k + t))
            * (∑ s ∈ Finset.range f,
              getQ (cell_widths_lon rad (uniGrid b e (f * L))) (f * l + s)) := by
      intro t ht
      rw [Finset.mem_range] at ht
      rw [Finset.mul_sum]
      refine Finset.sum_congr rfl ?_
      intro s hs
      rw [Finset.mem_range] at hs
      rw [hvalid t ht s hs]
      have hcm := getQ_cell_measures_centroids sind rad ds.lat ds.lon
        (i := f * k + t) (j := f * l + s)
        (by rw [hlat, uniGrid_length]; exact hidxK t ht)
        (by rw [hlon, uniGrid_length]; exact hidxL s hs)
      rw [hcm, hlat, hlon]
      ring
    rw [Finset.sum_congr rfl hper, ← Finset.sum_mul, ← Finset.mul_sum]
    ring
  rw [hmass, width_sum_lat sind hsind.monotone a d hd hf hK hk,
    width_sum_lon rad b e he hf hL hl]
  rw [getQ_cell_measures_centroids sind rad _ _
    (by rw [uniGrid_length]; exact hk) (by rw [uniGrid_length]; exact hl)]
  have hW1 : 0 < getQ (cell_widths_lat sind
      (uniGrid (a + ((f : ℚ) - 1) / 2 * d) ((f : ℚ) * d) K)) k := by
    rw [getQ_cell_widths_lat sind _ _ hK hk]
    have hpos : 0 < earth_radius
        * (sind (a + ((f : ℚ) - 1) / 2 * d - (f : ℚ) * d / 2 + ((k : ℚ) + 1) * ((f : ℚ) * d))
          - sind (a + ((f : ℚ) - 1) / 2 * d - (f : ℚ) * d / 2 + (k : ℚ) * ((f : ℚ) * d))) := by
      refine mul_pos hR (sub_pos.mpr (hsind ?_))
      nlinarith
    rw [abs_of_pos hpos]
    exact hpos
  have hW2 : 0 < getQ (cell_widths_lon rad
      (uniGrid (b + ((f : ℚ) - 1) / 2 * e) ((f : ℚ) * e) L)) l := by
    rw [getQ_cell_widths_lon rad _ _ hL hl]
    have hpos : 0 < earth_radius * (rad * ((f : ℚ) * e)) := by positivity
    rw [abs_of_pos hpos]
    exact hpos
  rw [mul_div_assoc, div_self (ne_of_gt (mul_pos hW1 hW2)), mul_one]

/-- A block with zero valid contributors carries zero mass. -/
theorem countValid_zero_mass {data : List (List (Option ℚ))} {msr : List (List ℚ)}
    {f k l : ℕ} (h : countValid data f k l = 0) : blockMass data msr f k l = 0 := by
  unfold countValid at h
  unfold blockMass
  refine Finset.sum_eq_zero ?_
  intro t ht
  refine Finset.sum_eq_zero ?_
  intro s hs
  have h1 := (Finset.sum_eq_zero_iff.mp h) t ht
  have h2 := (Finset.sum_eq_zero_iff.mp h1) s hs
  cases hO : getO data (f * k + t) (f * l + s) with
  | none => rfl
  | some v =>
    rw [hO] at h2
    exact absurd h2 Nat.one_ne_zero

/-- Blocks of size `f` tile an index range. -/
theorem sum_blocks (g : ℕ → ℚ) (f K : ℕ) :
    (∑ k ∈ Finset.range K, ∑ t ∈ Finset.range f, g (f * k + t))
      = ∑ i ∈ Finset.range (f * K), g i := by
  induction K with
  | zero => simp
  | succ K ih =>
    rw [Finset.sum_range_succ, ih, Nat.mul_succ, Finset.sum_range_add]

theorem le_mul_coarseSize {f : ℕ} (hf : 1 ≤ f) (n : ℕ) : n ≤ f * coarseSize f n := by
  unfold coarseSize
  have h := Nat.div_add_mod (n + f - 1) f
  have h2 := Nat.mod_lt (n + f - 1) (show 0 < f by omega)
  omega

/-- Coarsening conserves the area-weighted total: the coarse field times the
coarse measures block-sums back to the fine field times the fine measures,
provided no coarse cell measure vanishes (the division would otherwise lose
the block's mass). -/
theorem coarsen_conserves_integral (sind : ℚ → ℚ) (rad res : ℚ) (ds : GridDS)
    (hf : 1 ≤ fine_per_coarse res ds.lat) (hwf : wellFormed ds)
    (hcm : ∀ k, k < coarseSize (fine_per_coarse res ds.lat) ds.lat.length →
      ∀ l, l < coarseSize (fine_per_coarse res ds.lat) ds.lon.length →
        getQ ((cell_measures_centroids sind rad (coarsen_dataset sind rad res ds).lat
            (coarsen_dataset sind rad res ds).lon).getD k []) l ≠ 0) :
    weightedSum (coarsen_dataset sind rad res ds).data
        (cell_measures_centroids sind rad (coarsen_dataset sind rad res ds).lat
          (coarsen_dataset sind rad res ds).lon)
      = weightedSum ds.data (cell_measures_centroids sind rad ds.lat ds.lon) := by
  obtain ⟨hlen, hrow⟩ := hwf
  set f := fine_per_coarse res ds.lat with hfdef
  set K := coarseSize f ds.lat.length with hKdef
  set L := coarseSize f ds.lon.length with hLdef
  set msr := cell_measures_centroids sind rad ds.lat ds.lon with hmsr
  set cmsr := cell_measures_centroids sind rad (coarsen_dataset sind rad res ds).lat
    (coarsen_dataset sind rad res ds).lon with hcmsr
  have hterm : ∀ i j : ℕ, ds.data.length ≤ i ∨ (ds.data.getD i []).length ≤ j →
      (match getO ds.data i j with
       | some v => v * getQ (msr.getD i []) j
       | none => 0) = 0 := by
    intro i j hij
    have : getO ds.data i j = none := by
      unfold getO
      rcases hij with h | h
      · rw [List.getD_eq_default _ _ h]
        cases j <;> rfl
      · rw [List.getD_eq_default _ _ h]
    rw [this]
  -- left side: sum of block masses
  have hL1 : weightedSum (coarsen_dataset sind rad res ds).data cmsr
      = ∑ k ∈ Finset.range K, ∑ l ∈ Finset.range L, blockMass ds.data msr f k l := by
    unfold weightedSum
    rw [coarsen_data]
    simp only [List.length_map, List.length_range]
    rw [listSum_range]
    refine Finset.sum_congr rfl ?_
    intro k hk
    rw [Finset.mem_range] at hk
    rw [getD_range_map _ _ hk]
    simp only [List.length_map, List.length_range]
    rw [listSum_range]
    refine Finset.sum_congr rfl ?_
    intro l hl
    rw [Finset.mem_range] at hl
    have hO : getO ((List.range K).map fun k : ℕ => (List.range L).map fun l : ℕ =>
        if countValid ds.data f k l = 0 then none
        else some (blockMass ds.data msr f k l / getQ (cmsr.getD k []) l)) k l
        = if countValid ds.data f k l = 0 then none
          else some (blockMass ds.data msr f k l / getQ (cmsr.getD k []) l) := by
      unfold getO
      rw [getD_range_map _ _ hk, getD_range_map _ _ hl]
    rw [hO]
    by_cases hz : countValid ds.data f k l = 0
    · rw [if_pos hz, countValid_zero_mass hz]
    · rw [if_neg hz]
      exact div_mul_cancel₀ _ (hcm k hk l hl)
  -- right side: block masses tile the fine grid
  have hL2 : ∑ k ∈ Finset.range K, ∑ l ∈ Finset.range L, blockMass ds.data msr f k l
      = weightedSum ds.data msr := by
    unfold blockMass
    have hswap : ∀ k ∈ Finset.range K,
        (∑ l ∈ Finset.range L, ∑ t ∈ Finset.range f, ∑ s ∈ Finset.range f,
          (match getO ds.data (f * k + t) (f * l + s) with
           | some v => v * getQ (msr.getD (f * k + t) []) (f * l + s)
           | none => 0))
        = ∑ t ∈ Finset.range f, ∑ j ∈ Finset.range (f * L),
            (match getO ds.data (f * k + t) j with
             | some v => v * getQ (msr.getD (f * k + t) []) j
             | none => 0) := by
      intro k _
      rw [Finset.sum_comm]
      refine Finset.sum_congr rfl ?_
      intro t _
      exact sum_blocks (fun j =>
        match getO ds.data (f * k + t) j with
        | some v => v * getQ (msr.getD (f * k + t) []) j
        | none => 0) f L
    rw [Finset.sum_congr rfl hswap]
    have hrows : (∑ k ∈ Finset.range K, ∑ t ∈ Finset.range f,
        ∑ j ∈ Finset.range (f * L),
          (match getO ds.data (f * k + t) j with
           | some v => v * getQ (msr.getD (f * k + t) []) j
           | none => 0))
        = ∑ i ∈ Finset.range (f * K), ∑ j ∈ Finset.range (f * L),
            (match getO ds.data i j with
             | some v => v * getQ (msr.getD i []) j
             | none => 0) :=
      sum_blocks (fun i => ∑ j ∈ Finset.range (f * L),
        (match getO ds.data i j with
         | some v => v * getQ (msr.getD i []) j
         | none => 0)) f K
    rw [hrows]
    unfold weightedSum
    rw [listSum_range]
    have houter : ∑ i ∈ Finset.range (f * K), ∑ j ∈ Finset.range (f * L),
        (match getO ds.data i j with
         | some v => v * getQ (msr.getD i []) j
         | none => 0)
        = ∑ i ∈ Finset.range ds.data.length, ∑ j ∈ Finset.range (f * L),
            (match getO ds.data i j with
             | some v => v * getQ (msr.getD i []) j
             | none => 0) := by
      refine (Finset.sum_subset ?_ ?_).symm
      · refine Finset.range_subset.mpr ?_
        rw [hlen]
        exact le_mul_coarseSize hf ds.lat.length
      · intro i _ hni
        rw [Finset.mem_range, not_lt] at hni
        exact Finset.sum_eq_zero fun j _ => hterm i j (Or.inl hni)
    rw [houter]
    refine Finset.sum_congr rfl ?_
    intro i hi
    rw [Finset.mem_range] at hi
    rw [listSum_range]
    refine (Finset.sum_subset ?_ ?_).symm
    · refine Finset.range_subset.mpr ?_
      have : (ds.data.getD i []).length = ds.lon.length := by
        rw [List.getD_eq_getElem _ _ hi]
        exact hrow _ (List.getElem_mem hi)
      rw [this]
      exact le_mul_coarseSize hf ds.lon.length
    · intro j _ hnj
      rw [Finset.mem_range, not_lt] at hnj
      exact hterm i j (Or.inr hnj)
  rw [hL1, hL2]

/-- C3 (amended): (i) a constant field `c` on uniform lat/lon grids whose
sizes are exact multiples of the block factor, with every fine cell valid
(and at least two coarse points per axis, so the coarse edge synthesis is
defined), coarsens to `c` at every coarse cell; (ii) the area-weighted
integral of the coarsened field equals that of the fine field whenever no
coarse cell measure vanishes; (iii) a coarse cell is NaN iff zero
contributing fine cells held valid data.  Without the all-valid/uniform/
divisible provisos, (i) fails: a valid coarse cell whose block contains an
invalid fine cell (or a padded partial tile) is scaled by the ratio of
covered to full cell measure. -/
theorem coarsen_dataset_conservation (sind : ℚ → ℚ) (rad res : ℚ) :
    (∀ (a d b e c : ℚ) (f K L : ℕ) (ds : GridDS),
        StrictMono sind → 0 < rad → 0 < d → 0 < e →
        1 ≤ f → 2 ≤ K → 2 ≤ L →
        ds.lat = uniGrid a d (f * K) →
        ds.lon = uniGrid b e (f * L) →
        ds.data = ((List.range (f * K)).map fun _ : ℕ =>
          (List.range (f * L)).map fun _ : ℕ => some c) →
        fine_per_coarse res ds.lat = f →
        ∀ k, k < K → ∀ l, l < L →
          getO (coarsen_dataset sind rad res ds).data k l = some c)
    ∧ (∀ ds : GridDS, 1 ≤ fine_per_coarse res ds.lat → wellFormed ds →
        (∀ k, k < coarseSize (fine_per_coarse res ds.lat) ds.lat.length →
          ∀ l, l < coarseSize (fine_per_coarse res ds.lat) ds.lon.length →
            getQ ((cell_measures_centroids sind rad
                (coarsen_dataset sind rad res ds).lat
                (coarsen_dataset sind rad res ds).lon).getD k []) l ≠ 0) →
        weightedSum (coarsen_dataset sind rad res ds).data
            (cell_measures_centroids sind rad (coarsen_dataset sind rad res ds).lat
              (coarsen_dataset sind rad res ds).lon)
          = weightedSum ds.data (cell_measures_centroids sind rad ds.lat ds.lon))
    ∧ (∀ (ds : GridDS) (k l : ℕ),
        k < coarseSize (fine_per_coarse res ds.lat) ds.lat.length →
        l < coarseSize (fine_per_coarse res ds.lat) ds.lon.length →
        (getO (coarsen_dataset sind rad res ds).data k l = none
          ↔ countValid ds.data (fine_per_coarse res ds.lat) k l = 0)) := by
  refine ⟨?_, ?_, ?_⟩
  · intro a d b e c f K L ds hsind hrad hd he hf hK hL hlat hlon hdata hres
    exact coarsen_constant_cells sind rad res hsind hrad a d b e c hd he f K L
      hf hK hL ds hlat hlon hdata hres
  · intro ds hf hwf hcm
    exact coarsen_conserves_integral sind rad res ds hf hwf hcm
  · intro ds k l hk hl
    exact coarsen_nan_iff_aux sind rad res ds hk hl

/-- C3 witness: `coarsen_dataset_conservation` applied to a constant field
`7` on the uniform 4x4 grid, block factor 2. -/
theorem coarsen_dataset_conservation_witness :
    getO (coarsen_dataset id 1 2
        ⟨[0, 1, 2, 3], [0, 1, 2, 3],
         [[some 7, some 7, some 7, some 7],
          [some 7, some 7, some 7, some 7],
          [some 7, some 7, some 7, some 7],
          [some 7, some 7, some 7, some 7]]⟩).data 1 1
      = some 7 := by
  have hf : fine_per_coarse 2 [0, 1, 2, 3] = 2 := by
    have h1 : round ((2 : ℚ) / |meanLatSpacing [0, 1, 2, 3]|) = 2 := by
      norm_num [meanLatSpacing, getQ, List.range_succ, listSum, round_eq]
    unfold fine_per_coarse
    rw [h1]
    rfl
  refine (coarsen_dataset_conservation id 1 2).1 0 1 0 1 7 2 2 2
    ⟨[0, 1, 2, 3], [0, 1, 2, 3],
     [[some 7, some 7, some 7, some 7],
      [some 7, some 7, some 7, some 7],
      [some 7, some 7, some 7, some 7],
      [some 7, some 7, some 7, some 7]]⟩
    strictMono_id (by norm_num) (by norm_num) (by norm_num)
    (by norm_num) (by norm_num) (by norm_num)
    (by norm_num [uniGrid, List.range_succ])
    (by norm_num [uniGrid, List.range_succ])
    (by norm_num [List.range_succ])
    hf 1 (by norm_num) 1 (by norm_num)

/-! ### Relationship response score (C9) -/

theorem normSq_zipSub_self (m : List ℚ) : normSq (zipSub m m) = 0 := by
  induction m with
  | nil => rfl
  | cons x xs ih =>
    rw [show zipSub (x :: xs) (x :: xs) = (x - x) :: zipSub xs xs from rfl,
      show normSq ((x - x) :: zipSub xs xs)
        = (x - x) * (x - x) + normSq (zipSub xs xs) from rfl, ih]
    ring

/-- C9 (counterexample): two built responses that agree on every unmasked
bin but differ on a low-population masked bin.  The claimed score — over
the unmasked aligned per-bin means only — is `1`, but the code's score is
`exp(-4/sqrt 26) < 1`, because `np.linalg.norm` converts the masked arrays
with `asarray`, dropping the mask and reading the raw data of the masked
bins. -/
theorem score_response_uses_masked_bins :
    response_mean_data [1/2, 1/2, 1/2, 3/2] [1, 1, 1, 5] (0, 2) 2 = [1, 5]
    ∧ response_mean_data [1/2, 1/2, 1/2, 3/2] [1, 1, 1, 9] (0, 2) 2 = [1, 9]
    ∧ response_mask [1/2, 1/2, 1/2, 3/2] [1, 1, 1, 5] (0, 2) 2 (3/10)
        = [false, true]
    ∧ response_mask [1/2, 1/2, 1/2, 3/2] [1, 1, 1, 9] (0, 2) 2 (3/10)
        = [false, true]
    ∧ spec_score [1, 5] [false, true] [1, 9] [false, true] = 1
    ∧ score_response [1, 5] [1, 9] < 1
    ∧ score_response [1, 5] [1, 9]
        ≠ spec_score [1, 5] [false, true] [1, 9] [false, true] := by
  have hedges : linEdges 0 2 2 = [0, 1, 2] := by
    norm_num [linEdges, List.range_succ]
  have w1 : whichBin ((2 : ℚ)⁻¹) [0, 1, 2] 2 = 0 := by
    norm_num [whichBin, digitize]
  have w2 : whichBin (3/2) [0, 1, 2] 2 = 1 := by
    norm_num [whichBin, digitize]
  have hb0 : binValues [1/2, 1/2, 1/2, 3/2] [1, 1, 1, 5] [0, 1, 2] 2 0
      = [1, 1, 1] := by
    simp [binValues, List.zip_cons_cons, List.filter_cons, w1, w2]
  have hb1 : binValues [1/2, 1/2, 1/2, 3/2] [1, 1, 1, 5] [0, 1, 2] 2 1
      = [5] := by
    simp [binValues, List.zip_cons_cons, List.filter_cons, w1, w2]
  have hb0' : binValues [1/2, 1/2, 1/2, 3/2] [1, 1, 1, 9] [0, 1, 2] 2 0
      = [1, 1, 1] := by
    simp [binValues, List.zip_cons_cons, List.filter_cons, w1, w2]
  have hb1' : binValues [1/2, 1/2, 1/2, 3/2] [1, 1, 1, 9] [0, 1, 2] 2 1
      = [9] := by
    simp [binValues, List.zip_cons_cons, List.filter_cons, w1, w2]
  have h1 : response_mean_data [1/2, 1/2, 1/2, 3/2] [1, 1, 1, 5] (0, 2) 2
      = [1, 5] := by
    unfold response_mean_data
    rw [show List.range 2 = [0, 1] from rfl]
    simp only [List.map_cons, List.map_nil, hedges]
    unfold binMeanData
    simp only [hb0, hb1]
    norm_num [listSum]
  have h2 : response_mean_data [1/2, 1/2, 1/2, 3/2] [1, 1, 1, 9] (0, 2) 2
      = [1, 9] := by
    unfold response_mean_data
    rw [show List.range 2 = [0, 1] from rfl]
    simp only [List.map_cons, List.map_nil, hedges]
    unfold binMeanData
    simp only [hb0', hb1']
    norm_num [listSum]
  have h3 : response_mask [1/2, 1/2, 1/2, 3/2] [1, 1, 1, 5] (0, 2) 2 (3/10)
      = [false, true] := by
    unfold response_mask
    dsimp only
    rw [show List.range 2 = [0, 1] from rfl]
    simp only [List.map_cons, List.map_nil, hedges, hb0, hb1]
    norm_num [List.sum_cons]
  have h4 : response_mask [1/2, 1/2, 1/2, 3/2] [1, 1, 1, 9] (0, 2) 2 (3/10)
      = [false, true] := by
    unfold response_mask
    dsimp only
    rw [show List.range 2 = [0, 1] from rfl]
    simp only [List.map_cons, List.map_nil, hedges, hb0', hb1']
    norm_num [List.sum_cons]
  have h5 : spec_score [1, 5] [false, true] [1, 9] [false, true] = 1 := by
    have hp : maskedPairs [1, 5] [false, true] [1, 9] [false, true]
        = [((1 : ℚ), (1 : ℚ))] := by
      norm_num [maskedPairs]
    unfold spec_score
    dsimp only
    rw [hp]
    have hz : normSq ([((1 : ℚ), (1 : ℚ))].map fun p => p.1 - p.2) = 0 := by
      norm_num [normSq, listSum]
    have ho : normSq ([((1 : ℚ), (1 : ℚ))].map (·.1)) = 1 := by
      norm_num [normSq, listSum]
    rw [hz, ho, Rat.cast_zero, Real.sqrt_zero, Rat.cast_one, Real.sqrt_one,
      zero_div, neg_zero, Real.exp_zero]
  have h6 : score_response [1, 5] [1, 9] < 1 := by
    unfold score_response np_norm
    have hz : normSq (zipSub [1, 5] [1, 9]) = 16 := by
      norm_num [normSq, zipSub, listSum]
    have ho : normSq ([(1 : ℚ), 5]) = 26 := by
      norm_num [normSq, listSum]
    rw [hz, ho]
    have hlt : -(Real.sqrt ((16 : ℚ) : ℝ) / Real.sqrt ((26 : ℚ) : ℝ)) < 0 := by
      refine neg_neg_of_pos (div_pos (Real.sqrt_pos.mpr (by norm_num))
        (Real.sqrt_pos.mpr (by norm_num)))
    calc Real.exp (-(Real.sqrt ((16 : ℚ) : ℝ) / Real.sqrt ((26 : ℚ) : ℝ)))
        < Real.exp 0 := Real.exp_lt_exp.mpr hlt
    _ = 1 := Real.exp_zero
  exact ⟨h1, h2, h3, h4, h5, h6, by rw [h5]; exact ne_of_lt h6⟩

/-- C9 (amended): for built responses, the code's score equals
`exp(-‖data_self - data_other‖₂ / ‖data_self‖₂)` over the *full*
response-mean data arrays (masked bins included at their stored values: 0
for empty bins, the computed mean for under-populated bins); whenever
`‖data_self‖₂ ≠ 0` the result lies in `(0, 1]`, and the score of a response
against itself is `1`. -/
theorem score_response_spec (ind1 dep1 ind2 dep2 : List ℚ) (lim : ℚ × ℚ)
    (nbin : ℕ) (h : normSq (response_mean_data ind1 dep1 lim nbin) ≠ 0) :
    (score_response (response_mean_data ind1 dep1 lim nbin)
        (response_mean_data ind2 dep2 lim nbin)
      = Real.exp (-(Real.sqrt ((normSq (zipSub (response_mean_data ind1 dep1 lim nbin)
            (response_mean_data ind2 dep2 lim nbin)) : ℚ) : ℝ)
        / Real.sqrt ((normSq (response_mean_data ind1 dep1 lim nbin) : ℚ) : ℝ))))
    ∧ 0 < score_response (response_mean_data ind1 dep1 lim nbin)
        (response_mean_data ind2 dep2 lim nbin)
    ∧ score_response (response_mean_data ind1 dep1 lim nbin)
        (response_mean_data ind2 dep2 lim nbin) ≤ 1
    ∧ score_response (response_mean_data ind1 dep1 lim nbin)
        (response_mean_data ind1 dep1 lim nbin) = 1 := by
  refine ⟨rfl, Real.exp_pos _, ?_, ?_⟩
  · have hx : 0 ≤ np_norm (zipSub (response_mean_data ind1 dep1 lim nbin)
        (response_mean_data ind2 dep2 lim nbin))
          / np_norm (response_mean_data ind1 dep1 lim nbin) :=
      div_nonneg (Real.sqrt_nonneg _) (Real.sqrt_nonneg _)
    have hle : Real.exp (-(np_norm (zipSub (response_mean_data ind1 dep1 lim nbin)
        (response_mean_data ind2 dep2 lim nbin))
          / np_norm (response_mean_data ind1 dep1 lim nbin))) ≤ Real.exp 0 :=
      Real.exp_le_exp.mpr (by linarith)
    rw [Real.exp_zero] at hle
    exact hle
  · unfold score_response np_norm
    rw [normSq_zipSub_self, Rat.cast_zero, Real.sqrt_zero, zero_div, neg_zero,
      Real.exp_zero]

/-- C9 witness: `score_response_spec` applied to a concrete built response
(self-comparison scores 1). -/
theorem score_response_spec_witness :
    score_response (response_mean_data [1/2] [3] (0, 2) 2)
        (response_mean_data [1/2] [3] (0, 2) 2) = 1 :=
  (score_response_spec [1/2] [3] [1/2] [3] (0, 2) 2 (by
    have hedges : linEdges 0 2 2 = [0, 1, 2] := by
      norm_num [linEdges, List.range_succ]
    have w1 : whichBin ((2 : ℚ)⁻¹) [0, 1, 2] 2 = 0 := by
      norm_num [whichBin, digitize]
    have hb0 : binValues [1/2] [3] [0, 1, 2] 2 0 = [3] := by
      simp [binValues, List.zip_cons_cons, List.filter_cons, w1]
    have hb1 : binValues [1/2] [3] [0, 1, 2] 2 1 = [] := by
      simp [binValues, List.zip_cons_cons, List.filter_cons, w1]
    have hm : response_mean_data [1/2] [3] (0, 2) 2 = [3, 0] := by
      unfold response_mean_data
      rw [show List.range 2 = [0, 1] from rfl]
      simp only [List.map_cons, List.map_nil, hedges]
      unfold binMeanData
      simp only [hb0, hb1]
      norm_num [listSum]
    rw [hm]
    norm_num [normSq, listSum])).2.2.2

/-- C5 witness: a concrete application of `measure_arrays_nonneg` with
`sind = id`, `rad = 1` to a one-step ordered time-bounds array. -/
theorem measure_arrays_nonneg_witness :
    (0 : ℚ) ≤ nsToDays (2 - 0) := by
  refine (measure_arrays_nonneg id 1 monotone_id (by norm_num)).1
    [(5 : ℚ)] [((0 : ℚ), 2)] ?_ [nsToDays ((2 : ℚ) - 0)] rfl _ ?_
  · intro p hp
    rcases List.mem_singleton.mp hp with rfl
    norm_num
  · simp

end Ilamb
